import Mathlib

/-
Verification of the silene crawler core: the crawl frontier (priority
scheduling, duplicate filtering, off-site filtering), URL fingerprinting,
request merging, and the orchestration dispatch of redirect, success and
error outcomes.

The Python sources embedded here are src/silene/crawl_request.py,
src/silene/crawl_frontier.py and src/silene/crawler.py.  Python standard
library collaborators (urllib.parse, hashlib.sha256, heapq, re) are
modelled faithfully at the level the crawler exercises them: strings are
lists of characters compared by code point, and string lowering, percent
encoding and decoding are modelled at the ASCII or byte level (hostnames
and query strings handled by the crawler are code-point sequences, and
CPython removes the characters tab, CR and LF from URLs before parsing).
-/

set_option maxRecDepth 1000000

/-! ### Character and list-of-character utilities -/

/-- ASCII decimal digit test. -/
def isAsciiDigit (c : Char) : Bool := 48 ≤ c.toNat && c.toNat ≤ 57

/-- ASCII letter test. -/
def isAsciiAlpha (c : Char) : Bool :=
  (65 ≤ c.toNat && c.toNat ≤ 90) || (97 ≤ c.toNat && c.toNat ≤ 122)

/-- ASCII alphanumeric test. -/
def isAsciiAlnum (c : Char) : Bool := isAsciiAlpha c || isAsciiDigit c

/-- ASCII lower-casing of one character, the fragment of str.lower that
hostnames and schemes exercise. -/
def asciiLower (c : Char) : Char :=
  if 65 ≤ c.toNat && c.toNat ≤ 90 then Char.ofNat (c.toNat + 32) else c

/-- ASCII lower-casing of a character list. -/
def lowerChars (l : List Char) : List Char := l.map asciiLower

/-- Split a character list at the first occurrence of a separator, the
model of str.split(sep, 1); none when the separator does not occur. -/
def splitFirst (sep : Char) : List Char → Option (List Char × List Char)
  | [] => none
  | c :: rest =>
    if c = sep then some ([], rest)
    else
      match splitFirst sep rest with
      | none => none
      | some (a, b) => some (c :: a, b)

/-- Split a character list at every occurrence of a separator, the model
of str.split(sep); like Python it yields empty chunks. -/
def splitAll (sep : Char) : List Char → List (List Char)
  | [] => [[]]
  | c :: rest =>
    match splitAll sep rest with
    | [] => [[c]]
    | g :: gs => if c = sep then [] :: g :: gs else (c :: g) :: gs

/-- The part of a character list after its last occurrence of a separator,
or the whole list when the separator does not occur; this is the third
component of str.rpartition(sep). -/
def afterLast (sep : Char) (l : List Char) : List Char :=
  ((l.reverse.takeWhile (fun c => c ≠ sep)).reverse)

/-- Whether the separator occurs, companion to afterLast. -/
def containsChar (sep : Char) (l : List Char) : Bool := l.any (fun c => c = sep)

/-- Code-point lexicographic strict comparison of character lists, the
model of Python string comparison. -/
def charListLt : List Char → List Char → Bool
  | [], [] => false
  | [], _ :: _ => true
  | _ :: _, [] => false
  | a :: as, b :: bs => if a = b then charListLt as bs else decide (a.toNat < b.toNat)

/-- Code-point lexicographic non-strict comparison of character lists. -/
def charListLe : List Char → List Char → Bool
  | [], _ => true
  | _ :: _, [] => false
  | a :: as, b :: bs => if a = b then charListLe as bs else decide (a.toNat < b.toNat)

/-! ### SHA-256, the model of hashlib.sha256 over a byte list -/

/-- The 32-bit modulus. -/
def M32 : Nat := 4294967296

/-- Right rotation of a 32-bit word. -/
def rotr (n x : Nat) : Nat := ((x >>> n) ||| (x <<< (32 - n))) % M32

/-- The SHA-256 round constants. -/
def shaK : List Nat :=
  [1116352408, 1899447441, 3049323471, 3921009573, 961987163, 1508970993,
   2453635748, 2870763221, 3624381080, 310598401, 607225278, 1426881987,
   1925078388, 2162078206, 2614888103, 3248222580, 3835390401, 4022224774,
   264347078, 604807628, 770255983, 1249150122, 1555081692, 1996064986,
   2554220882, 2821834349, 2952996808, 3210313671, 3336571891, 3584528711,
   113926993, 338241895, 666307205, 773529912, 1294757372, 1396182291,
   1695183700, 1986661051, 2177026350, 2456956037, 2730485921, 2820302411,
   3259730800, 3345764771, 3516065817, 3600352804, 4094571909, 275423344,
   430227734, 506948616, 659060556, 883997877, 958139571, 1322822218,
   1537002063, 1747873779, 1955562222, 2024104815, 2227730452, 2361852424,
   2428436474, 2756734187, 3204031479, 3329325298]

/-- The SHA-256 initial hash value. -/
def shaH0 : List Nat :=
  [1779033703, 3144134277, 1013904242, 2773480762,
   1359893119, 2600822924, 528734635, 1541459225]

/-- Message padding: the byte 0x80, zeros, then the bit length big-endian
in eight bytes, to a multiple of 64 bytes. -/
def padMessage (msg : List Nat) : List Nat :=
  let len := msg.length
  let bitlen := len * 8
  let padzeros := (119 - (len % 64)) % 64
  msg ++ 128 :: List.replicate padzeros 0 ++
    [bitlen / 2^56 % 256, bitlen / 2^48 % 256, bitlen / 2^40 % 256, bitlen / 2^32 % 256,
     bitlen / 2^24 % 256, bitlen / 2^16 % 256, bitlen / 2^8 % 256, bitlen % 256]

/-- Big-endian grouping of bytes into 32-bit words. -/
def bytesToWords : List Nat → List Nat
  | a :: b :: c :: d :: rest => (a * 2^24 + b * 2^16 + c * 2^8 + d) :: bytesToWords rest
  | _ => []

/-- The sigma-0 message-schedule function. -/
def smallSigma0 (x : Nat) : Nat := (rotr 7 x) ^^^ (rotr 18 x) ^^^ (x >>> 3)

/-- The sigma-1 message-schedule function. -/
def smallSigma1 (x : Nat) : Nat := (rotr 17 x) ^^^ (rotr 19 x) ^^^ (x >>> 10)

/-- The Sigma-0 compression function. -/
def bigSigma0 (x : Nat) : Nat := (rotr 2 x) ^^^ (rotr 13 x) ^^^ (rotr 22 x)

/-- The Sigma-1 compression function. -/
def bigSigma1 (x : Nat) : Nat := (rotr 6 x) ^^^ (rotr 11 x) ^^^ (rotr 25 x)

/-- Extension of the sixteen block words to the sixty-four schedule words. -/
def extendSchedule : Nat → List Nat → List Nat
  | 0, acc => acc
  | n + 1, acc =>
    let len := acc.length
    let w15 := acc.getD (len - 15) 0
    let w2 := acc.getD (len - 2) 0
    let w16 := acc.getD (len - 16) 0
    let w7 := acc.getD (len - 7) 0
    extendSchedule n (acc ++ [(w16 + smallSigma0 w15 + w7 + smallSigma1 w2) % M32])

/-- One round of the SHA-256 compression loop. -/
def compressStep (st : Nat × Nat × Nat × Nat × Nat × Nat × Nat × Nat) (kw : Nat × Nat) :
    Nat × Nat × Nat × Nat × Nat × Nat × Nat × Nat :=
  match st with
  | (a, b, c, d, e, f, g, h) =>
    let t1 := (h + bigSigma1 e + ((e &&& f) ^^^ ((M32 - 1 - e) &&& g)) + kw.1 + kw.2) % M32
    let t2 := (bigSigma0 a + ((a &&& b) ^^^ (a &&& c) ^^^ (b &&& c))) % M32
    ((t1 + t2) % M32, a, b, c, (d + t1) % M32, e, f, g)

/-- Processing of one 64-byte block into the running hash state. -/
def processBlock (h : List Nat) (block : List Nat) : List Nat :=
  let w := extendSchedule 48 (bytesToWords block)
  match h with
  | [h0, h1, h2, h3, h4, h5, h6, h7] =>
    match (shaK.zip w).foldl compressStep (h0, h1, h2, h3, h4, h5, h6, h7) with
    | (a, b, c, d, e, f, g, hh) =>
      [(h0 + a) % M32, (h1 + b) % M32, (h2 + c) % M32, (h3 + d) % M32,
       (h4 + e) % M32, (h5 + f) % M32, (h6 + g) % M32, (h7 + hh) % M32]
  | _ => h

/-- Block-by-block processing of a padded message; the fuel dominates the
block count, so it never runs out. -/
def processBlocks (fuel : Nat) (h : List Nat) (bytes : List Nat) : List Nat :=
  match fuel with
  | 0 => h
  | fuel + 1 =>
    match bytes with
    | [] => h
    | _ => processBlocks fuel (processBlock h (bytes.take 64)) (bytes.drop 64)

/-- Lower-case hexadecimal digit of a value below sixteen. -/
def hexChar (n : Nat) : Char := if n < 10 then Char.ofNat (48 + n) else Char.ofNat (87 + n)

/-- Eight-digit lower-case hexadecimal rendering of a 32-bit word. -/
def wordToHex (w : Nat) : List Char :=
  [hexChar (w / 2^28 % 16), hexChar (w / 2^24 % 16), hexChar (w / 2^20 % 16),
   hexChar (w / 2^16 % 16), hexChar (w / 2^12 % 16), hexChar (w / 2^8 % 16),
   hexChar (w / 2^4 % 16), hexChar (w % 16)]

/-- The hexdigest of the SHA-256 hash of a byte list, the model of
hashlib.sha256(bytes).hexdigest(). -/
def sha256Hex (msg : List Nat) : List Char :=
  let padded := padMessage msg
  let hs := processBlocks padded.length shaH0 padded
  hs.foldr (fun w acc => wordToHex w ++ acc) []

/-- UTF-8 encoding of one code point, the model of str.encode for one
character. -/
def utf8EncodeChar (c : Char) : List Nat :=
  let n := c.toNat
  if n < 128 then [n]
  else if n < 2048 then [192 + n / 64, 128 + n % 64]
  else if n < 65536 then [224 + n / 4096, 128 + n / 64 % 64, 128 + n % 64]
  else [240 + n / 262144, 128 + n / 4096 % 64, 128 + n / 64 % 64, 128 + n % 64]

/-- UTF-8 encoding of a character list. -/
def utf8Encode (l : List Char) : List Nat := l.flatMap utf8EncodeChar

/-! ### The urllib.parse model -/

/-- Characters CPython removes from a URL before parsing (tab, CR, LF). -/
def sanitizeUrl (l : List Char) : List Char :=
  l.filter (fun c => c ≠ Char.ofNat 9 && c ≠ Char.ofNat 13 && c ≠ Char.ofNat 10)

/-- Characters allowed in a URL scheme after the first letter. -/
def isSchemeChar (c : Char) : Bool :=
  isAsciiAlnum c || c = '+' || c = '-' || c = '.'

/-- The result of urlsplit: scheme, network location, path, query and
fragment components. -/
structure UrlSplitResult where
  scheme : List Char
  netloc : List Char
  path : List Char
  query : List Char
  fragment : List Char
deriving DecidableEq

/-- The result of urlparse, which additionally splits parameters from the
last path segment. -/
structure UrlParseResult where
  scheme : List Char
  netloc : List Char
  path : List Char
  params : List Char
  query : List Char
  fragment : List Char
deriving DecidableEq

/-- The model of urllib.parse.urlsplit: strip unsafe characters, split off a
valid scheme at the first colon, take the network location after a double
slash up to the first slash, question mark or hash, then split the fragment
at the first hash and the query at the first question mark. -/
def urlsplit (url0 : List Char) : UrlSplitResult :=
  let url := sanitizeUrl url0
  let schemeSplit : List Char × List Char :=
    match splitFirst ':' url with
    | none => ([], url)
    | some (before, after) =>
      match before with
      | [] => ([], url)
      | c :: rest =>
        if isAsciiAlpha c && rest.all isSchemeChar then (lowerChars before, after)
        else ([], url)
  let scheme := schemeSplit.1
  let rest1 := schemeSplit.2
  let netlocSplit : List Char × List Char :=
    match rest1 with
    | '/' :: '/' :: tail =>
      (tail.takeWhile (fun c => c ≠ '/' && c ≠ '?' && c ≠ '#'),
       tail.dropWhile (fun c => c ≠ '/' && c ≠ '?' && c ≠ '#'))
    | _ => ([], rest1)
  let netloc := netlocSplit.1
  let rest2 := netlocSplit.2
  let fragSplit : List Char × List Char :=
    match splitFirst '#' rest2 with
    | none => (rest2, [])
    | some (a, b) => (a, b)
  let querySplit : List Char × List Char :=
    match splitFirst '?' fragSplit.1 with
    | none => (fragSplit.1, [])
    | some (a, b) => (a, b)
  ⟨scheme, netloc, querySplit.1, querySplit.2, fragSplit.2⟩

/-- The model of the parameter split of urlparse: when the path contains a
semicolon, split at the first semicolon at or after the last slash. -/
def splitparams (path : List Char) : List Char × List Char :=
  if containsChar '/' path then
    let beforeSlash := path.length - (afterLast '/' path).length
    let tail := path.drop beforeSlash
    match splitFirst ';' tail with
    | none => (path, [])
    | some (a, b) => (path.take beforeSlash ++ a, b)
  else
    match splitFirst ';' path with
    | none => (path, [])
    | some (a, b) => (a, b)

/-- The model of urllib.parse.urlparse. -/
def urlparse (url : List Char) : UrlParseResult :=
  let s := urlsplit url
  if containsChar ';' s.path then
    let pp := splitparams s.path
    ⟨s.scheme, s.netloc, pp.1, pp.2, s.query, s.fragment⟩
  else
    ⟨s.scheme, s.netloc, s.path, [], s.query, s.fragment⟩

/-- The model of the hostname property of a split result: the part of the
network location after the last at sign, either the bracketed host or the
part before the first colon, lower-cased; none when empty. -/
def hostnameOfNetloc (netloc : List Char) : Option (List Char) :=
  let hostinfo := if containsChar '@' netloc then afterLast '@' netloc else netloc
  let host :=
    match splitFirst '[' hostinfo with
    | some (_, bracketed) => bracketed.takeWhile (fun c => c ≠ ']')
    | none => hostinfo.takeWhile (fun c => c ≠ ':')
  match host with
  | [] => none
  | _ => some (lowerChars host)

/-- The hostname of a URL, as urlparse(url).hostname. -/
def urlHostname (url : List Char) : Option (List Char) :=
  hostnameOfNetloc (urlsplit url).netloc

/-- The model of urllib.parse.urlunsplit composed with the parameter
re-join of urlunparse. -/
def urlunparse (p : UrlParseResult) : List Char :=
  let path := if p.params = [] then p.path else p.path ++ ';' :: p.params
  let url1 :=
    if p.netloc ≠ [] ∨ (path ≠ [] ∧ path.take 2 = ['/', '/']) then
      '/' :: '/' :: p.netloc ++ (if path ≠ [] ∧ path.take 1 ≠ ['/'] then '/' :: path else path)
    else path
  let url2 := if p.scheme = [] then url1 else p.scheme ++ ':' :: url1
  let url3 := if p.query = [] then url2 else url2 ++ '?' :: p.query
  if p.fragment = [] then url3 else url3 ++ '#' :: p.fragment

/-- Hexadecimal digit test. -/
def isHexDigit (c : Char) : Bool :=
  isAsciiDigit c || (97 ≤ c.toNat && c.toNat ≤ 102) || (65 ≤ c.toNat && c.toNat ≤ 70)

/-- Value of a hexadecimal digit. -/
def hexVal (c : Char) : Nat :=
  if isAsciiDigit c then c.toNat - 48
  else if 97 ≤ c.toNat then c.toNat - 87
  else c.toNat - 55

/-- The model of urllib.parse.unquote at the byte level: a percent sign
followed by two hexadecimal digits becomes the character of that byte
value, and invalid escapes stay literal. -/
def unquoteChars : List Char → List Char
  | [] => []
  | '%' :: a :: b :: rest =>
    if isHexDigit a && isHexDigit b then Char.ofNat (16 * hexVal a + hexVal b) :: unquoteChars rest
    else '%' :: unquoteChars (a :: b :: rest)
  | c :: rest => c :: unquoteChars rest

/-- The model of urllib.parse.parse_qsl with default arguments: split the
query on ampersands, skip empty chunks, chunks without an equals sign and
chunks with an empty value, replace plus signs by spaces and percent-decode
names and values. -/
def parse_qsl (qs : List Char) : List (List Char × List Char) :=
  match qs with
  | [] => []
  | _ =>
    (splitAll '&' qs).foldr
      (fun chunk acc =>
        match chunk with
        | [] => acc
        | _ =>
          match splitFirst '=' chunk with
          | none => acc
          | some (_, []) => acc
          | some (name, value) =>
            (unquoteChars (name.map (fun c => if c = '+' then ' ' else c)),
             unquoteChars (value.map (fun c => if c = '+' then ' ' else c))) :: acc)
      []

/-- Upper-case hexadecimal digit of a value below sixteen. -/
def hexCharUpper (n : Nat) : Char := if n < 10 then Char.ofNat (48 + n) else Char.ofNat (55 + n)

/-- The model of urllib.parse.quote of one character with a safe set: keep
letters, digits, underscore, dot, hyphen, tilde and safe characters, and
percent-encode the UTF-8 bytes of everything else. -/
def quoteChar (safe : List Char) (c : Char) : List Char :=
  if isAsciiAlnum c || c = '_' || c = '.' || c = '-' || c = '~' || c ∈ safe then [c]
  else (utf8EncodeChar c).flatMap (fun b => ['%', hexCharUpper (b / 16), hexCharUpper (b % 16)])

/-- The model of urllib.parse.quote_plus: when the string contains a space,
quote with space safe and then turn spaces into plus signs. -/
def quote_plus (s : List Char) : List Char :=
  if containsChar ' ' s then
    (s.flatMap (quoteChar [' '])).map (fun c => if c = ' ' then '+' else c)
  else s.flatMap (quoteChar [])

/-- The model of urllib.parse.urlencode with default arguments over an
association list. -/
def urlencode (pairs : List (List Char × List Char)) : List Char :=
  match pairs.map (fun p => quote_plus p.1 ++ '=' :: quote_plus p.2) with
  | [] => []
  | part :: parts => part ++ parts.foldr (fun q acc => '&' :: q ++ acc) []

/-! ### The heapq model

The Python standard library heapq functions used by the frontier, embedded
with explicit fuel so every definition is structural and executable.  The
fuel arguments dominate the loop iteration counts, which decrease strictly
toward their bound, so the fuel-exhaustion branches are unreachable from
the entry points below; they repeat the loop-exit action. -/

/-- The loop of heapq siftdown: bubble the new item toward the root while
it compares below its parent, shifting parents down, then store it. -/
def pySiftdownLoop {α : Type} (lt : α → α → Bool) :
    Nat → List α → Nat → Nat → α → List α
  | 0, heap, _, pos, newitem => heap.set pos newitem
  | fuel + 1, heap, startpos, pos, newitem =>
    if startpos < pos then
      let parentpos := (pos - 1) / 2
      match heap[parentpos]? with
      | some parent =>
        if lt newitem parent then
          pySiftdownLoop lt fuel (heap.set pos parent) startpos parentpos newitem
        else heap.set pos newitem
      | none => heap.set pos newitem
    else heap.set pos newitem

/-- The heapq siftdown function: read the new item at pos and run the loop. -/
def pySiftdown {α : Type} (lt : α → α → Bool) (heap : List α) (startpos pos : Nat) : List α :=
  match heap[pos]? with
  | some newitem => pySiftdownLoop lt pos heap startpos pos newitem
  | none => heap

/-- The heapq heappush function: append the item and sift it down from the
last position. -/
def pyHeappush {α : Type} (lt : α → α → Bool) (heap : List α) (item : α) : List α :=
  pySiftdown lt (heap ++ [item]) 0 heap.length

/-- The loop of heapq siftup: move the hole down to a leaf, always lifting
the smaller child, then store the new item at the leaf and bubble it back
up with siftdown. -/
def pySiftupLoop {α : Type} (lt : α → α → Bool) :
    Nat → List α → Nat → α → List α
  | 0, heap, pos, newitem => pySiftdown lt (heap.set pos newitem) 0 pos
  | fuel + 1, heap, pos, newitem =>
    let childpos := 2 * pos + 1
    if childpos < heap.length then
      let rightpos := childpos + 1
      let chosen :=
        if rightpos < heap.length then
          match heap[childpos]?, heap[rightpos]? with
          | some cl, some cr => if lt cl cr then childpos else rightpos
          | _, _ => childpos
        else childpos
      match heap[chosen]? with
      | some child => pySiftupLoop lt fuel (heap.set pos child) chosen newitem
      | none => pySiftdown lt (heap.set pos newitem) 0 pos
    else pySiftdown lt (heap.set pos newitem) 0 pos

/-- The heapq siftup function: read the new item at pos and run the loop. -/
def pySiftup {α : Type} (lt : α → α → Bool) (heap : List α) (pos : Nat) : List α :=
  match heap[pos]? with
  | some newitem => pySiftupLoop lt heap.length heap pos newitem
  | none => heap

/-- The heapq heappop function: remove the last element; when elements
remain, return the root, move the last element there and sift it up.
Returns none on the empty list, where Python raises IndexError. -/
def pyHeappop {α : Type} (lt : α → α → Bool) (heap : List α) : Option (α × List α) :=
  match heap.getLast? with
  | none => none
  | some lastelt =>
    let rest := heap.dropLast
    match rest.head? with
    | none => some (lastelt, [])
    | some returnitem => some (returnitem, pySiftup lt (rest.set 0 lastelt) 0)

/-! ### The silene data model -/

/-- A Python exception that escapes the embedded code. -/
inductive PyError where
  | typeError
  | pageError
deriving DecidableEq

/-- Decidable equality of embedded Python results. -/
instance exceptDecidableEq {E A : Type} [DecidableEq E] [DecidableEq A] :
    DecidableEq (Except E A) := fun x y =>
  match x, y with
  | Except.ok a, Except.ok b =>
    if h : a = b then isTrue (by rw [h]) else isFalse (fun hc => h (Except.ok.inj hc))
  | Except.error e, Except.error e2 =>
    if h : e = e2 then isTrue (by rw [h]) else isFalse (fun hc => h (Except.error.inj hc))
  | Except.ok _, Except.error _ => isFalse (fun hc => Except.noConfusion hc)
  | Except.error _, Except.ok _ => isFalse (fun hc => Except.noConfusion hc)

/-- The CrawlRequest value object of src/silene/crawl_request.py.  The
handler fields hold opaque Python callables, embedded as values of an
arbitrary type H (none models the Python default None).  The source also
stores a domain attribute, assigned exactly once in the constructor as
urlparse(url).hostname; since it is determined by the url field on every
instance the source can build, it is embedded as the derived function
CrawlRequest.domain below. -/
structure CrawlRequest (H : Type) where
  url : String
  priority : Int
  redirect_func : Option H
  success_func : Option H
  error_func : Option H
deriving DecidableEq

/-- The constructor of CrawlRequest with its Python default arguments
(priority 0, no handlers) made explicit. -/
def CrawlRequest.init (H : Type) (url : String) (priority : Int)
    (redirect_func success_func error_func : Option H) : CrawlRequest H :=
  ⟨url, priority, redirect_func, success_func, error_func⟩

/-- The domain attribute: urlparse(url).hostname, none when the URL has no
parseable host. -/
def CrawlRequest.domain {H : Type} (r : CrawlRequest H) : Option String :=
  (urlHostname r.url.data).map String.mk

/-- The Python expression a or b on integers: a when truthy (non-zero),
else b. -/
def pyOrInt (a b : Int) : Int := if a = 0 then b else a

/-- The Python expression a or b on optional callables: a when not None,
else b. -/
def pyOrOpt {H : Type} (a b : Option H) : Option H :=
  match a with
  | some x => some x
  | none => b

/-- The merge method of CrawlRequest: a new request built from the first
request's url, with priority and each handler taken from the first request
when set and from the other request otherwise. -/
def CrawlRequest.merge {H : Type} (r other_request : CrawlRequest H) : CrawlRequest H :=
  CrawlRequest.init H r.url (pyOrInt r.priority other_request.priority)
    (pyOrOpt r.redirect_func other_request.redirect_func)
    (pyOrOpt r.success_func other_request.success_func)
    (pyOrOpt r.error_func other_request.error_func)

/-- The comparison method of CrawlRequest: self is less than other exactly
when its priority is greater, which makes the heapq min-heap deliver the
greatest priority first. -/
def CrawlRequest.ltB {H : Type} (self other : CrawlRequest H) : Bool :=
  decide (other.priority < self.priority)

/-- The CrawlResponse value object of src/silene/crawl_response.py. -/
structure CrawlResponse (H : Type) where
  request : CrawlRequest H
  status : Int
  headers : List (String × String)
  text : Option String
deriving DecidableEq

/-- The CrawlerConfiguration of src/silene/crawler_configuration.py.  The
allowed_domains field holds the normalized hostnames the constructor
extracts with the external tld library from the raw input strings. -/
structure CrawlerConfiguration (H : Type) where
  seed_requests : List (CrawlRequest H)
  filter_duplicate_requests : Bool
  filter_offsite_requests : Bool
  allowed_domains : List String
deriving DecidableEq

/-- The CrawlFrontier state of src/silene/crawl_frontier.py: the
configuration, the pending-request heap and the set of seen URL hashes.
The hash set is embedded as a list whose membership is set membership; the
add_request control flow inserts a hash only after a failed membership
test, so the list never holds duplicates. -/
structure CrawlFrontier (H : Type) where
  crawler_configuration : CrawlerConfiguration H
  requests : List (CrawlRequest H)
  url_hashes : List String
deriving DecidableEq

/-- The sort key comparison of generate_url_hash: pairs ordered by name
and then by value, the lexicographic order induced by the Python sort key
(param[0], param[1]).  Since the key is the whole pair, any correct sort
produces the same list as the stable Python sorted. -/
def qslKeyLe (a b : List Char × List Char) : Bool :=
  if a.1 = b.1 then charListLe a.2 b.2 else charListLe a.1 b.1

/-- The static method generate_url_hash: parse the URL, sort its query
pairs by name then value, re-encode them, drop the fragment, reassemble,
and take the SHA-256 hexdigest of the UTF-8 bytes. -/
def CrawlFrontier.generate_url_hash (url : String) : String :=
  let url_parts := urlparse url.data
  let sorted_query_params :=
    (parse_qsl url_parts.query).insertionSort (fun a b => qslKeyLe a b = true)
  let normalized_url := urlunparse
    ⟨url_parts.scheme, url_parts.netloc, url_parts.path, url_parts.params,
     urlencode sorted_query_params, []⟩
  ⟨sha256Hex (utf8Encode normalized_url)⟩

/-- One alternative of the compiled domain pattern matched against a
character list: a dot in the alternative matches any character except a
newline, as the dot metacharacter does in Python re; every other character
of a normalized hostname is a regex literal. -/
def altMatches : List Char → List Char → Bool
  | [], [] => true
  | p :: ps, c :: cs =>
    (if p = '.' then c ≠ Char.ofNat 10 else p = c) && altMatches ps cs
  | _, _ => false

/-- The alternatives of the compiled pattern: joining an empty allowed-
domain list with the bar character yields one empty alternative. -/
def patternAlternatives (allowed_domains : List String) : List (List Char) :=
  match allowed_domains with
  | [] => [[]]
  | _ => allowed_domains.map String.data

/-- The prefix language of the optional group in the compiled pattern: the
empty string, or any newline-free string followed by a literal dot. -/
def dotPrefixOk (p : List Char) : Bool :=
  match p with
  | [] => true
  | _ => p.getLast? = some '.' && p.dropLast.all (fun c => c ≠ Char.ofNat 10)

/-- The end anchor of the compiled pattern: the dollar matches at the end
of the string or before one trailing newline. -/
def altMatchesToEnd (alt : List Char) (t : List Char) : Bool :=
  altMatches alt t ||
    (t.getLast? = some (Char.ofNat 10) && altMatches alt t.dropLast)

/-- The model of re.search with the compiled frontier pattern, which is
anchored on both sides: some split of the subject has an admissible prefix
and a suffix matching one alternative up to the end anchor. -/
def domainPatternSearch (allowed_domains : List String) (s : List Char) : Bool :=
  (List.range (s.length + 1)).any (fun k =>
    dotPrefixOk (s.take k) &&
      (patternAlternatives allowed_domains).any (fun alt => altMatchesToEnd alt (s.drop k)))

/-- The add_request method of CrawlFrontier.  With duplicate filtering on,
a request whose URL hash was seen is rejected, otherwise its hash is
recorded (a mutation that survives even if a later step raises).  With
off-site filtering on, a request whose domain is None makes re.search
raise TypeError, and a domain that does not match the compiled pattern is
rejected.  Otherwise the request is pushed onto the heap. -/
def CrawlFrontier.add_request {H : Type} (f : CrawlFrontier H) (request : CrawlRequest H) :
    Except PyError Bool × CrawlFrontier H :=
  let afterDup : Except (Except PyError Bool × CrawlFrontier H) (CrawlFrontier H) :=
    if f.crawler_configuration.filter_duplicate_requests then
      let url_hash := CrawlFrontier.generate_url_hash request.url
      if url_hash ∈ f.url_hashes then Except.error (Except.ok false, f)
      else Except.ok { f with url_hashes := url_hash :: f.url_hashes }
    else Except.ok f
  match afterDup with
  | Except.error out => out
  | Except.ok f1 =>
    let afterOffsite : Except (Except PyError Bool × CrawlFrontier H) Unit :=
      if f1.crawler_configuration.filter_offsite_requests then
        match request.domain with
        | none => Except.error (Except.error PyError.typeError, f1)
        | some d =>
          if domainPatternSearch f1.crawler_configuration.allowed_domains d.data then
            Except.ok ()
          else Except.error (Except.ok false, f1)
      else Except.ok ()
    match afterOffsite with
    | Except.error out => out
    | Except.ok _ =>
      (Except.ok true, { f1 with requests := pyHeappush CrawlRequest.ltB f1.requests request })

/-- The has_next_request method: the heap is non-empty. -/
def CrawlFrontier.has_next_request {H : Type} (f : CrawlFrontier H) : Bool :=
  decide (0 < f.requests.length)

/-- The get_next_request method: pop the heap, or return None on the empty
heap where Python catches IndexError. -/
def CrawlFrontier.get_next_request {H : Type} (f : CrawlFrontier H) :
    Option (CrawlRequest H) × CrawlFrontier H :=
  match pyHeappop CrawlRequest.ltB f.requests with
  | none => (none, f)
  | some (r, rest) => (some r, { f with requests := rest })

/-- A frontier with a configuration and no state, the object before the
constructor replays the seed requests. -/
def CrawlFrontier.initial {H : Type} (cfg : CrawlerConfiguration H) : CrawlFrontier H :=
  ⟨cfg, [], []⟩

/-- One externally driven frontier operation: an add_request call or a
get_next_request call. -/
inductive FrontierOp (H : Type) where
  | add (request : CrawlRequest H)
  | pop
deriving DecidableEq

/-- Application of one frontier operation to the state; an exception from
add_request propagates to the caller but the mutated state survives. -/
def FrontierOp.apply {H : Type} (op : FrontierOp H) (f : CrawlFrontier H) : CrawlFrontier H :=
  match op with
  | FrontierOp.add r => (CrawlFrontier.add_request f r).2
  | FrontierOp.pop => (CrawlFrontier.get_next_request f).2

/-- Application of a list of frontier operations from left to right. -/
def applyOps {H : Type} (ops : List (FrontierOp H)) (f : CrawlFrontier H) : CrawlFrontier H :=
  ops.foldl (fun g op => FrontierOp.apply op g) f

/-- The CrawlFrontier constructor: replay add_request over the seed
requests of the configuration in order. -/
def CrawlFrontier.construct {H : Type} (cfg : CrawlerConfiguration H) : CrawlFrontier H :=
  applyOps (cfg.seed_requests.map FrontierOp.add) (CrawlFrontier.initial cfg)

/-- Repeated get_next_request until the frontier reports no request; the
fuel dominates the heap size. -/
def drainFrontier {H : Type} : Nat → CrawlFrontier H → List (CrawlRequest H)
  | 0, _ => []
  | fuel + 1, f =>
    match CrawlFrontier.get_next_request f with
    | (none, _) => []
    | (some r, f1) => r :: drainFrontier fuel f1

/-- The full drain of a frontier. -/
def CrawlFrontier.drain {H : Type} (f : CrawlFrontier H) : List (CrawlRequest H) :=
  drainFrontier f.requests.length f

/-! ### The crawler orchestration model

The observable effects of one iteration of Crawler._run are embedded as an
event trace: frontier admissions, redirect, success and error handler
dispatches, and the second (GET) navigation.  A dispatch event records the
per-request handler that was called, or none when the crawler fell back to
its default hook (on_request_redirect, on_response_success,
on_response_error). -/

/-- A raw network response as delivered by the browser collaborator. -/
structure RawResponse where
  status : Int
  headers : List (String × String)
  text : String
deriving DecidableEq

/-- An observable effect of the orchestration loop. -/
inductive CrawlEvent (H : Type) where
  | frontierAdd (request : CrawlRequest H) (accepted : Bool)
  | redirectDispatch (handler : Option H) (response : CrawlResponse H)
      (newRequest : CrawlRequest H)
  | successDispatch (handler : Option H) (response : CrawlResponse H)
  | errorDispatch (handler : Option H) (response : CrawlResponse H)
  | getNavigation (url : String)
deriving DecidableEq

/-- The outcome of the probe (HEAD) navigation of one iteration, as the
interception hook observed it: the navigation was aborted because it was a
redirect continuation (carrying the last intercepted request URL and the
last observed response), or it completed, or it failed for another reason
(the PageError is re-raised). -/
inductive ProbeOutcome where
  | redirected (lastRequestUrl : String) (lastResponse : RawResponse)
  | completed
  | failed

/-- The _handle_redirect method of Crawler: build a CrawlResponse for the
original request with absent text, build the new request for the redirect
target merged from the original, submit it with crawl (frontier
admission), then dispatch the redirect handler of the original request or
the default hook.  An exception from the admission call propagates before
any dispatch. -/
def Crawler.handle_redirect {H : Type} (f : CrawlFrontier H)
    (origin_crawl_request : CrawlRequest H) (origin_request_url : String)
    (response : RawResponse) :
    List (CrawlEvent H) × CrawlFrontier H × Option PyError :=
  let crawl_response : CrawlResponse H :=
    ⟨origin_crawl_request, response.status, response.headers, none⟩
  let redirected_request :=
    (CrawlRequest.init H origin_request_url 0 none none none).merge origin_crawl_request
  match CrawlFrontier.add_request f redirected_request with
  | (Except.ok accepted, f1) =>
    ([CrawlEvent.frontierAdd redirected_request accepted,
      CrawlEvent.redirectDispatch origin_crawl_request.redirect_func crawl_response
        redirected_request],
     f1, none)
  | (Except.error e, f1) => ([], f1, some e)

/-- The _handle_response method of Crawler: build a CrawlResponse with the
body text and dispatch exactly one handler, the success one for a status
in the interval from 200 to 299 and the error one otherwise, preferring
the per-request handler over the default hook. -/
def Crawler.handle_response {H : Type} (request : CrawlRequest H)
    (response : RawResponse) : List (CrawlEvent H) :=
  let crawl_response : CrawlResponse H :=
    ⟨request, response.status, response.headers, some response.text⟩
  if 200 ≤ response.status ∧ response.status < 300 then
    [CrawlEvent.successDispatch request.success_func crawl_response]
  else
    [CrawlEvent.errorDispatch request.error_func crawl_response]

/-- One iteration of the main loop of Crawler._run after the dequeue: when
the probe navigation was aborted as a redirect continuation, handle the
redirect and skip the GET phase; when the probe completed, issue the GET
navigation for the same URL and handle its response; when the probe failed
otherwise, re-raise. -/
def Crawler.runIteration {H : Type} (f : CrawlFrontier H) (next : CrawlRequest H)
    (probe : ProbeOutcome) (getResponse : RawResponse) :
    List (CrawlEvent H) × CrawlFrontier H × Option PyError :=
  match probe with
  | ProbeOutcome.redirected lastUrl lastResp =>
    Crawler.handle_redirect f next lastUrl lastResp
  | ProbeOutcome.completed =>
    (CrawlEvent.getNavigation next.url :: Crawler.handle_response next getResponse, f, none)
  | ProbeOutcome.failed => ([], f, some PyError.pageError)

/-- Test for a redirect dispatch event. -/
def isRedirectDispatch {H : Type} : CrawlEvent H → Bool
  | CrawlEvent.redirectDispatch _ _ _ => true
  | _ => false

/-- Test for a frontier admission event. -/
def isFrontierAdd {H : Type} : CrawlEvent H → Bool
  | CrawlEvent.frontierAdd _ _ => true
  | _ => false

/-- Test for a GET navigation event. -/
def isGetNavigation {H : Type} : CrawlEvent H → Bool
  | CrawlEvent.getNavigation _ => true
  | _ => false

/-- Whether some redirect dispatch strictly precedes some frontier
admission in a trace. -/
def dispatchPrecedesAdmission {H : Type} : List (CrawlEvent H) → Bool
  | [] => false
  | e :: rest =>
    (isRedirectDispatch e && rest.any isFrontierAdd) || dispatchPrecedesAdmission rest

/-- The instance attributes the CrawlRequest constructor assigns, from
src/silene/crawl_request.py lines 29 to 34. -/
def CrawlRequest.instanceAttributes : List String :=
  ["_url", "_domain", "_priority", "_redirect_func", "_success_func", "_error_func"]

/-- The property names the CrawlRequest class exposes, from
src/silene/crawl_request.py lines 45 to 67. -/
def CrawlRequest.propertyNames : List String :=
  ["url", "domain", "priority", "redirect_func", "success_func", "error_func"]

/-- The parameter names of the CrawlRequest constructor, from
src/silene/crawl_request.py lines 21 to 27. -/
def CrawlRequest.initParameters : List String :=
  ["url", "priority", "redirect_func", "success_func", "error_func"]

/-- The attribute of the current crawl request that the interception hook
Crawler._on_request reads to merge extra headers into the outgoing
request, from src/silene/crawler.py line 254. -/
def Crawler.onRequestHeadersAttribute : String := "headers"

/-- The keyword argument the integration test
test_custom_request_header_handling passes to the CrawlRequest
constructor, from src/tests/integration/test_crawler.py line 150. -/
def testCrawlerHeadersKeyword : String := "headers"

/-- Suffix test on character lists. -/
def charListEndsWith (l suffix : List Char) : Bool :=
  l.reverse.take suffix.length = suffix.reverse

/-- The off-site match rule as the specification states it: the domain
equals an allowed entry or ends with a dot followed by an allowed entry.
This definition follows the words of the specification and is compared
against the compiled-pattern behaviour of the source. -/
def specOffsiteAllowed (allowed_domains : List String) (domain : String) : Bool :=
  allowed_domains.any (fun a => domain = a || charListEndsWith domain.data ('.' :: a.data))

/-! ### Verification of the heapq model -/

theorem getElem?_set_self {α : Type} {l : List α} {i : Nat} {a : α} (h : i < l.length) :
    (l.set i a)[i]? = some a := by
  simp [List.getElem?_set, h]

theorem getElem?_set_ne {α : Type} {l : List α} {i j : Nat} {a : α} (h : i ≠ j) :
    (l.set i a)[j]? = l[j]? := by
  simp [List.getElem?_set, h]

theorem set_of_getElem?_eq {α : Type} :
    ∀ (l : List α) (i : Nat) (a : α), l[i]? = some a → l.set i a = l := by
  intro l
  induction l with
  | nil => intro i a h; simp at h
  | cons x xs ih =>
    intro i a h
    cases i with
    | zero => simp at h; simp [h]
    | succ n => simp at h; simp [List.set, ih n a h]

theorem perm_cons_set_swap {α : Type} :
    ∀ (xs : List α) (k : Nat) (a b : α), k < xs.length →
      (a :: xs.set k b).Perm (b :: xs.set k a) := by
  intro xs
  induction xs with
  | nil => intro k a b h; simp at h
  | cons y ys ih =>
    intro k a b h
    cases k with
    | zero => simpa using List.Perm.swap b a ys
    | succ n =>
      simp only [List.set]
      have h' : n < ys.length := by simpa using h
      exact ((List.Perm.swap y a _).trans
        ((List.Perm.cons y (ih n a b h')).trans (List.Perm.swap b y _)))

theorem perm_set_set {α : Type} :
    ∀ (l : List α) (i j : Nat) (a b : α), i < j → j < l.length →
      ((l.set i a).set j b).Perm ((l.set i b).set j a) := by
  intro l
  induction l with
  | nil => intro i j a b _ h; simp at h
  | cons x xs ih =>
    intro i j a b hij hj
    cases i with
    | zero =>
      cases j with
      | zero => omega
      | succ m =>
        simp only [List.set]
        have hm : m < xs.length := by simpa using hj
        exact perm_cons_set_swap xs m a b hm
    | succ n =>
      cases j with
      | zero => omega
      | succ m =>
        simp only [List.set]
        exact List.Perm.cons x (ih n m a b (by omega) (by simpa using hj))

/-- The binary min-heap invariant under a strict comparison: no child
compares strictly below its parent. -/
def IsHeap {α : Type} (lt : α → α → Bool) (h : List α) : Prop :=
  ∀ i x y, 0 < i → h[i]? = some x → h[(i - 1) / 2]? = some y → lt x y = false

/-- The loop invariant of heapq siftdown with start position zero: the
array has a hole at pos whose stored value is ignored; all other edges are
ordered, the children of the hole fit below the travelling new item, and
they also fit below the parent of the hole. -/
structure SiftdownState {α : Type} (lt : α → α → Bool) (h : List α) (pos : Nat)
    (newitem : α) : Prop where
  bounded : pos < h.length
  edges : ∀ i x y, 0 < i → i ≠ pos → (i - 1) / 2 ≠ pos →
    h[i]? = some x → h[(i - 1) / 2]? = some y → lt x y = false
  children : ∀ i x, 0 < i → (i - 1) / 2 = pos → h[i]? = some x → lt x newitem = false
  lower : ∀ i x g, 0 < i → (i - 1) / 2 = pos → 0 < pos →
    h[i]? = some x → h[(pos - 1) / 2]? = some g → lt x g = false

/-- The loop invariant of the descent phase of heapq siftup: a hole at pos
with all other edges ordered, and the children of the hole fitting below
the parent of the hole. -/
structure WalkState {α : Type} (lt : α → α → Bool) (h : List α) (pos : Nat) : Prop where
  bounded : pos < h.length
  edges : ∀ i x y, 0 < i → i ≠ pos → (i - 1) / 2 ≠ pos →
    h[i]? = some x → h[(i - 1) / 2]? = some y → lt x y = false
  lower : ∀ i x g, 0 < i → (i - 1) / 2 = pos → 0 < pos →
    h[i]? = some x → h[(pos - 1) / 2]? = some g → lt x g = false

theorem lt_self_eq_false {α : Type} {lt : α → α → Bool}
    (hasym : ∀ a b, lt a b = true → lt b a = false) (a : α) : lt a a = false := by
  cases hlaa : lt a a with
  | false => rfl
  | true =>
    have hcontra := hasym a a hlaa
    rw [hlaa] at hcontra
    exact hcontra

theorem setHeap_of_state {α : Type} {lt : α → α → Bool} {h : List α} {pos : Nat}
    {newitem : α} (st : SiftdownState lt h pos newitem)
    (hup : ∀ y, 0 < pos → h[(pos - 1) / 2]? = some y → lt newitem y = false) :
    IsHeap lt (h.set pos newitem) := by
  intro i x y hi hx hy
  by_cases hip : i = pos
  · subst hip
    rw [getElem?_set_self st.bounded] at hx
    injection hx with hx
    subst hx
    have hpos : 0 < i := hi
    have hpne : (i - 1) / 2 ≠ i := by omega
    rw [getElem?_set_ne (fun hh => hpne hh.symm)] at hy
    exact hup y hpos hy
  · rw [getElem?_set_ne (fun hh => hip hh.symm)] at hx
    by_cases hipp : (i - 1) / 2 = pos
    · rw [hipp, getElem?_set_self st.bounded] at hy
      injection hy with hy
      subst hy
      exact st.children i x hi hipp hx
    · rw [getElem?_set_ne (fun hh => hipp hh.symm)] at hy
      exact st.edges i x y hi hip hipp hx hy

theorem siftdownLoop_spec {α : Type} {lt : α → α → Bool}
    (hasym : ∀ a b, lt a b = true → lt b a = false)
    (hneg : ∀ a b c, lt b a = false → lt c b = false → lt c a = false) :
    ∀ (fuel : Nat) (h : List α) (pos : Nat) (newitem : α), pos ≤ fuel →
      SiftdownState lt h pos newitem →
      IsHeap lt (pySiftdownLoop lt fuel h 0 pos newitem) ∧
        (pySiftdownLoop lt fuel h 0 pos newitem).Perm (h.set pos newitem) := by
  intro fuel
  induction fuel with
  | zero =>
    intro h pos newitem hle st
    have hpos : pos = 0 := by omega
    subst hpos
    simp only [pySiftdownLoop]
    exact ⟨setHeap_of_state st (fun y hy _ => absurd hy (by omega)), List.Perm.refl _⟩
  | succ fuel ih =>
    intro h pos newitem hle st
    by_cases hpos : 0 < pos
    · have hparlt : (pos - 1) / 2 < h.length := by
        have := st.bounded; omega
      obtain ⟨parent, hpar⟩ : ∃ p, h[(pos - 1) / 2]? = some p :=
        ⟨h[(pos - 1) / 2], List.getElem?_eq_getElem hparlt⟩
      simp only [pySiftdownLoop, hpar]
      rw [if_pos hpos]
      by_cases hcmp : lt newitem parent = true
      · simp only [hcmp, if_true]
        have hstep : SiftdownState lt (h.set pos parent) ((pos - 1) / 2) newitem := by
          constructor
          · rw [List.length_set]; exact hparlt
          · intro i x y hi hine hpne hx hy
            by_cases hip : i = pos
            · exfalso; apply hpne; omega
            · rw [getElem?_set_ne (fun hh => hip hh.symm)] at hx
              by_cases hipp : (i - 1) / 2 = pos
              · rw [hipp, getElem?_set_self st.bounded] at hy
                injection hy with hy
                subst hy
                exact st.lower i x parent hi hipp hpos hx hpar
              · rw [getElem?_set_ne (fun hh => hipp hh.symm)] at hy
                exact st.edges i x y hi hip hipp hx hy
          · intro i x hi hipar hx
            by_cases hip : i = pos
            · subst hip
              rw [getElem?_set_self st.bounded] at hx
              injection hx with hx
              subst hx
              exact hasym newitem parent hcmp
            · rw [getElem?_set_ne (fun hh => hip hh.symm)] at hx
              have hxpar : lt x parent = false :=
                st.edges i x parent hi hip (by omega) hx (by rw [hipar]; exact hpar)
              exact hneg newitem parent x (hasym newitem parent hcmp) hxpar
          · intro i x g hi hipar hppos hx hg
            have hgne : ((pos - 1) / 2 - 1) / 2 ≠ pos := by omega
            rw [getElem?_set_ne (fun hh => hgne hh.symm)] at hg
            have hparg : lt parent g = false :=
              st.edges ((pos - 1) / 2) parent g hppos (by omega) (by omega) hpar hg
            by_cases hip : i = pos
            · subst hip
              rw [getElem?_set_self st.bounded] at hx
              injection hx with hx
              subst hx
              exact hparg
            · rw [getElem?_set_ne (fun hh => hip hh.symm)] at hx
              have hxpar : lt x parent = false :=
                st.edges i x parent hi hip (by omega) hx (by rw [hipar]; exact hpar)
              exact hneg g parent x hparg hxpar
        have hfuel : (pos - 1) / 2 ≤ fuel := by omega
        obtain ⟨hheap, hperm⟩ := ih (h.set pos parent) ((pos - 1) / 2) newitem hfuel hstep
        refine ⟨hheap, hperm.trans ?_⟩
        have h2 : (h.set pos parent).set ((pos - 1) / 2) newitem =
            (h.set ((pos - 1) / 2) newitem).set pos parent :=
          List.set_comm parent newitem h (by omega)
        have h1 : ((h.set ((pos - 1) / 2) newitem).set pos parent).Perm
            ((h.set ((pos - 1) / 2) parent).set pos newitem) :=
          perm_set_set h ((pos - 1) / 2) pos newitem parent (by omega) st.bounded
        have h3 : h.set ((pos - 1) / 2) parent = h := set_of_getElem?_eq h _ parent hpar
        rw [h2]
        rw [h3] at h1
        exact h1
      · have hcmpf : lt newitem parent = false := by
          cases hc : lt newitem parent with
          | false => rfl
          | true => exact absurd hc hcmp
        simp only [hcmpf]
        refine ⟨setHeap_of_state st ?_, List.Perm.refl _⟩
        intro y _ hy
        rw [hpar] at hy
        injection hy with hy
        subst hy
        exact hcmpf
    · have hpos0 : pos = 0 := by omega
      subst hpos0
      simp only [pySiftdownLoop]
      rw [if_neg (by omega : ¬ (0 : Nat) < 0)]
      exact ⟨setHeap_of_state st (fun y hy _ => absurd hy (by omega)), List.Perm.refl _⟩

theorem pySiftdown_spec {α : Type} {lt : α → α → Bool}
    (hasym : ∀ a b, lt a b = true → lt b a = false)
    (hneg : ∀ a b c, lt b a = false → lt c b = false → lt c a = false)
    (h : List α) (pos : Nat) (newitem : α) (hget : h[pos]? = some newitem)
    (st : SiftdownState lt h pos newitem) :
    IsHeap lt (pySiftdown lt h 0 pos) ∧ (pySiftdown lt h 0 pos).Perm h := by
  obtain ⟨hheap, hperm⟩ := siftdownLoop_spec hasym hneg pos h pos newitem (Nat.le_refl pos) st
  simp only [pySiftdown, hget]
  exact ⟨hheap, hperm.trans (by rw [set_of_getElem?_eq h pos newitem hget])⟩

theorem heappush_spec {α : Type} {lt : α → α → Bool}
    (hasym : ∀ a b, lt a b = true → lt b a = false)
    (hneg : ∀ a b c, lt b a = false → lt c b = false → lt c a = false)
    (h : List α) (x : α) (hh : IsHeap lt h) :
    IsHeap lt (pyHeappush lt h x) ∧ (pyHeappush lt h x).Perm (h ++ [x]) := by
  have hget : (h ++ [x])[h.length]? = some x := by
    rw [List.getElem?_append_right (Nat.le_refl h.length)]
    simp
  have st : SiftdownState lt (h ++ [x]) h.length x := by
    constructor
    · simp
    · intro i y z hi hine hpne hy hz
      have hilen : i < h.length + 1 := by
        by_contra hcon
        rw [List.getElem?_eq_none (by simp; omega)] at hy
        exact Option.noConfusion hy
      have hi2 : i < h.length := by omega
      rw [List.getElem?_append, if_pos hi2] at hy
      rw [List.getElem?_append, if_pos (by omega : (i - 1) / 2 < h.length)] at hz
      exact hh i y z hi hy hz
    · intro i y hi hipar hy
      have hilen : i < h.length + 1 := by
        by_contra hcon
        rw [List.getElem?_eq_none (by simp; omega)] at hy
        exact Option.noConfusion hy
      omega
    · intro i y g hi hipar hppos hy hg
      have hilen : i < h.length + 1 := by
        by_contra hcon
        rw [List.getElem?_eq_none (by simp; omega)] at hy
        exact Option.noConfusion hy
      omega
  have := pySiftdown_spec hasym hneg (h ++ [x]) h.length x hget st
  exact ⟨this.1, this.2⟩

theorem walk_exit_spec {α : Type} {lt : α → α → Bool}
    (hasym : ∀ a b, lt a b = true → lt b a = false)
    (hneg : ∀ a b c, lt b a = false → lt c b = false → lt c a = false)
    (h : List α) (pos : Nat) (newitem : α) (st : WalkState lt h pos)
    (hleaf : ¬ 2 * pos + 1 < h.length) :
    IsHeap lt (pySiftdown lt (h.set pos newitem) 0 pos) ∧
      (pySiftdown lt (h.set pos newitem) 0 pos).Perm (h.set pos newitem) := by
  have hget : (h.set pos newitem)[pos]? = some newitem := getElem?_set_self st.bounded
  refine pySiftdown_spec hasym hneg (h.set pos newitem) pos newitem hget ?_
  constructor
  · rw [List.length_set]; exact st.bounded
  · intro i x y hi hine hpne hx hy
    rw [getElem?_set_ne (fun hh => hine hh.symm)] at hx
    rw [getElem?_set_ne (fun hh => hpne hh.symm)] at hy
    exact st.edges i x y hi hine hpne hx hy
  · intro i x hi hipar hx
    have hibound : i < h.length := by
      by_contra hcon
      rw [List.getElem?_eq_none (by rw [List.length_set]; omega)] at hx
      exact Option.noConfusion hx
    omega
  · intro i x g hi hipar hppos hx hg
    have hibound : i < h.length := by
      by_contra hcon
      rw [List.getElem?_eq_none (by rw [List.length_set]; omega)] at hx
      exact Option.noConfusion hx
    omega

theorem getElem?_bound {α : Type} {l : List α} {i : Nat} {a : α}
    (h : l[i]? = some a) : i < l.length := by
  by_contra hcon
  rw [List.getElem?_eq_none (by omega)] at h
  exact Option.noConfusion h

theorem walk_step {α : Type} {lt : α → α → Bool}
    (hneg : ∀ a b c, lt b a = false → lt c b = false → lt c a = false)
    (h : List α) (pos : Nat) (st : WalkState lt h pos) (chosen : Nat) (c : α)
    (hch : h[chosen]? = some c)
    (hchild : (chosen - 1) / 2 = pos) (hchpos : 0 < chosen)
    (hmin : ∀ s y, 0 < s → (s - 1) / 2 = pos → h[s]? = some y → lt y c = false) :
    WalkState lt (h.set pos c) chosen := by
  have hchb : chosen < h.length := getElem?_bound hch
  constructor
  · rw [List.length_set]; exact hchb
  · intro i x y hi hine hpne hx hy
    by_cases hip : i = pos
    · subst hip
      rw [getElem?_set_self st.bounded] at hx
      injection hx with hx
      subst hx
      have hppne : (i - 1) / 2 ≠ i := by omega
      rw [getElem?_set_ne (by omega : i ≠ (i - 1) / 2)] at hy
      exact st.lower chosen c y hchpos hchild hi hch hy
    · rw [getElem?_set_ne (fun hh => hip hh.symm)] at hx
      by_cases hipp : (i - 1) / 2 = pos
      · rw [hipp, getElem?_set_self st.bounded] at hy
        injection hy with hy
        subst hy
        exact hmin i x hi hipp hx
      · rw [getElem?_set_ne (fun hh => hipp hh.symm)] at hy
        exact st.edges i x y hi hip hipp hx hy
  · intro i x g hi hipar hppos hx hg
    rw [hchild, getElem?_set_self st.bounded] at hg
    injection hg with hg
    subst hg
    have hine : i ≠ pos := by omega
    rw [getElem?_set_ne (fun hh => hine hh.symm)] at hx
    exact st.edges i x c hi hine (by omega) hx (by rw [hipar]; exact hch)

theorem siftupLoop_spec {α : Type} {lt : α → α → Bool}
    (hasym : ∀ a b, lt a b = true → lt b a = false)
    (hneg : ∀ a b c, lt b a = false → lt c b = false → lt c a = false) :
    ∀ (fuel : Nat) (h : List α) (pos : Nat) (newitem : α), h.length ≤ fuel + pos →
      WalkState lt h pos →
      IsHeap lt (pySiftupLoop lt fuel h pos newitem) ∧
        (pySiftupLoop lt fuel h pos newitem).Perm (h.set pos newitem) := by
  intro fuel
  induction fuel with
  | zero =>
    intro h pos newitem hle st
    exact absurd st.bounded (by omega)
  | succ fuel ih =>
    intro h pos newitem hle st
    by_cases hleaf : 2 * pos + 1 < h.length
    · obtain ⟨cl, hcl⟩ : ∃ c, h[2 * pos + 1]? = some c :=
        ⟨h[2 * pos + 1], List.getElem?_eq_getElem hleaf⟩
      have hdescend : ∀ (chosen : Nat) (c : α), h[chosen]? = some c →
          (chosen - 1) / 2 = pos → 0 < chosen →
          (∀ s y, 0 < s → (s - 1) / 2 = pos → h[s]? = some y → lt y c = false) →
          IsHeap lt (pySiftupLoop lt fuel (h.set pos c) chosen newitem) ∧
            (pySiftupLoop lt fuel (h.set pos c) chosen newitem).Perm (h.set pos newitem) := by
        intro chosen c hch hchild hchpos hmin
        have hst := walk_step hneg h pos st chosen c hch hchild hchpos hmin
        have hlen : (h.set pos c).length ≤ fuel + chosen := by
          rw [List.length_set]; omega
        obtain ⟨hheap, hperm⟩ := ih (h.set pos c) chosen newitem hlen hst
        refine ⟨hheap, hperm.trans ?_⟩
        have h1 : ((h.set pos c).set chosen newitem).Perm ((h.set pos newitem).set chosen c) :=
          perm_set_set h pos chosen c newitem (by omega) (getElem?_bound hch)
        have h2 : (h.set pos newitem).set chosen c = h.set pos newitem := by
          apply set_of_getElem?_eq
          rw [getElem?_set_ne (by omega : pos ≠ chosen)]
          exact hch
        rw [h2] at h1
        exact h1
      by_cases hr : 2 * pos + 1 + 1 < h.length
      · obtain ⟨cr, hcr⟩ : ∃ c, h[2 * pos + 1 + 1]? = some c :=
          ⟨h[2 * pos + 1 + 1], List.getElem?_eq_getElem hr⟩
        by_cases hcmp : lt cl cr = true
        · have hred : pySiftupLoop lt (fuel + 1) h pos newitem =
              pySiftupLoop lt fuel (h.set pos cl) (2 * pos + 1) newitem := by
            simp only [pySiftupLoop, hleaf, hr, hcl, hcr, hcmp, if_true]
          rw [hred]
          refine hdescend (2 * pos + 1) cl hcl (by omega) (by omega) ?_
          intro s y hs hspar hsy
          have hsb : s < h.length := getElem?_bound hsy
          have : s = 2 * pos + 1 ∨ s = 2 * pos + 2 := by omega
          cases this with
          | inl hleft =>
            subst hleft
            rw [hcl] at hsy
            injection hsy with hsy
            subst hsy
            exact lt_self_eq_false hasym cl
          | inr hright =>
            subst hright
            rw [show (2 * pos + 2) = 2 * pos + 1 + 1 from rfl, hcr] at hsy
            injection hsy with hsy
            subst hsy
            exact hasym cl cr hcmp
        · have hcmpf : lt cl cr = false := by
            cases hc : lt cl cr with
            | false => rfl
            | true => exact absurd hc hcmp
          have hred : pySiftupLoop lt (fuel + 1) h pos newitem =
              pySiftupLoop lt fuel (h.set pos cr) (2 * pos + 1 + 1) newitem := by
            simp only [pySiftupLoop, hleaf, hr, hcl, hcr, hcmpf, Bool.false_eq_true,
              if_true, if_false]
          rw [hred]
          refine hdescend (2 * pos + 1 + 1) cr hcr (by omega) (by omega) ?_
          intro s y hs hspar hsy
          have hsb : s < h.length := getElem?_bound hsy
          have : s = 2 * pos + 1 ∨ s = 2 * pos + 2 := by omega
          cases this with
          | inl hleft =>
            subst hleft
            rw [hcl] at hsy
            injection hsy with hsy
            subst hsy
            exact hcmpf
          | inr hright =>
            subst hright
            rw [show (2 * pos + 2) = 2 * pos + 1 + 1 from rfl, hcr] at hsy
            injection hsy with hsy
            subst hsy
            exact lt_self_eq_false hasym cr
      · have hred : pySiftupLoop lt (fuel + 1) h pos newitem =
            pySiftupLoop lt fuel (h.set pos cl) (2 * pos + 1) newitem := by
          simp only [pySiftupLoop, hleaf, hr, hcl, if_true, if_false]
        rw [hred]
        refine hdescend (2 * pos + 1) cl hcl (by omega) (by omega) ?_
        intro s y hs hspar hsy
        have hsb : s < h.length := getElem?_bound hsy
        have : s = 2 * pos + 1 := by omega
        subst this
        rw [hcl] at hsy
        injection hsy with hsy
        subst hsy
        exact lt_self_eq_false hasym cl
    · have hred : pySiftupLoop lt (fuel + 1) h pos newitem =
          pySiftdown lt (h.set pos newitem) 0 pos := by
        simp only [pySiftupLoop, hleaf, if_false]
      rw [hred]
      exact walk_exit_spec hasym hneg h pos newitem st hleaf

theorem root_min {α : Type} {lt : α → α → Bool}
    (hasym : ∀ a b, lt a b = true → lt b a = false)
    (hneg : ∀ a b c, lt b a = false → lt c b = false → lt c a = false)
    (h : List α) (hh : IsHeap lt h) (r : α) (hr : h[0]? = some r) :
    ∀ (i : Nat) (x : α), h[i]? = some x → lt x r = false := by
  have hbase : ∀ (n : Nat), ∀ (i : Nat) (x : α), i ≤ n → h[i]? = some x → lt x r = false := by
    intro n
    induction n with
    | zero =>
      intro i x hi hx
      have h0 : i = 0 := by omega
      subst h0
      rw [hr] at hx
      injection hx with hx
      subst hx
      exact lt_self_eq_false hasym r
    | succ n ih =>
      intro i x hi hx
      cases Nat.eq_zero_or_pos i with
      | inl h0 =>
        subst h0
        rw [hr] at hx
        injection hx with hx
        subst hx
        exact lt_self_eq_false hasym r
      | inr hpos =>
        have hib : i < h.length := getElem?_bound hx
        have hparb : (i - 1) / 2 < h.length := by omega
        obtain ⟨p, hp⟩ : ∃ p, h[(i - 1) / 2]? = some p :=
          ⟨h[(i - 1) / 2], List.getElem?_eq_getElem hparb⟩
        have h1 : lt x p = false := hh i x p hpos hx hp
        have h2 : lt p r = false := ih ((i - 1) / 2) p (by omega) hp
        exact hneg r p x h2 h1
  exact fun i x hx => hbase i i x (Nat.le_refl i) hx

theorem heappop_spec {α : Type} {lt : α → α → Bool}
    (hasym : ∀ a b, lt a b = true → lt b a = false)
    (hneg : ∀ a b c, lt b a = false → lt c b = false → lt c a = false)
    (h : List α) (hh : IsHeap lt h) (hne : 0 < h.length) :
    ∃ r h', pyHeappop lt h = some (r, h') ∧ h[0]? = some r ∧ IsHeap lt h' ∧
      (r :: h').Perm h ∧ (∀ y ∈ h, lt y r = false) := by
  obtain ⟨lastelt, hlast⟩ : ∃ a, h.getLast? = some a := by
    cases hl : h.getLast? with
    | none => rw [List.getLast?_eq_none_iff] at hl; subst hl; simp at hne
    | some a => exact ⟨a, rfl⟩
  have hsplit : h.dropLast ++ [lastelt] = h := by
    have := List.dropLast_append_getLast? _ hlast
    exact this
  cases hrest : h.dropLast.head? with
  | none =>
    rw [List.head?_eq_none_iff] at hrest
    have hh1 : h = [lastelt] := by rw [← hsplit, hrest]; rfl
    refine ⟨lastelt, [], ?_, ?_, ?_, ?_, ?_⟩
    · simp [pyHeappop, hlast, hrest]
    · rw [hh1]; rfl
    · intro i x y hi hx hy
      rw [List.getElem?_eq_none (by simp : ([] : List α).length ≤ i)] at hx
      exact Option.noConfusion hx
    · rw [hh1]
    · intro y hy
      rw [hh1] at hy
      simp at hy
      subst hy
      exact lt_self_eq_false hasym y
  | some returnitem =>
    obtain ⟨t, ht⟩ : ∃ t, h.dropLast = returnitem :: t := by
      cases hd : h.dropLast with
      | nil => rw [hd] at hrest; simp at hrest
      | cons a t => rw [hd] at hrest; injection hrest with hr2; subst hr2; exact ⟨t, rfl⟩
    have hr0 : h[0]? = some returnitem := by
      rw [← hsplit, ht]
      simp
    have hstep : pyHeappop lt h = some (returnitem, pySiftup lt ((h.dropLast).set 0 lastelt) 0) := by
      simp [pyHeappop, hlast, hrest]
    -- the sifted heap
    have hlen2 : 0 < ((h.dropLast).set 0 lastelt).length := by
      rw [List.length_set, ht]; simp
    have hget0 : ((h.dropLast).set 0 lastelt)[0]? = some lastelt := by
      rw [ht]; simp
    have hwalk : WalkState lt ((h.dropLast).set 0 lastelt) 0 := by
      constructor
      · exact hlen2
      · intro i x y hi hine hpne hx hy
        have hib : i < (h.dropLast).length := by
          have := getElem?_bound hx
          rw [List.length_set] at this
          exact this
        have hpb : (i - 1) / 2 < (h.dropLast).length := by omega
        rw [getElem?_set_ne (by omega : (0 : Nat) ≠ i)] at hx
        rw [getElem?_set_ne (by omega : (0 : Nat) ≠ (i - 1) / 2)] at hy
        have hx' : h[i]? = some x := by
          rw [← hsplit, List.getElem?_append, if_pos hib]
          exact hx
        have hy' : h[(i - 1) / 2]? = some y := by
          rw [← hsplit, List.getElem?_append, if_pos hpb]
          exact hy
        exact hh i x y hi hx' hy'
      · intro i x g hi hipar hppos _ _
        omega
    have hspec := siftupLoop_spec hasym hneg ((h.dropLast).set 0 lastelt).length
      ((h.dropLast).set 0 lastelt) 0 lastelt (by omega) hwalk
    have hsift : pySiftup lt ((h.dropLast).set 0 lastelt) 0 =
        pySiftupLoop lt ((h.dropLast).set 0 lastelt).length ((h.dropLast).set 0 lastelt) 0 lastelt := by
      simp [pySiftup, hget0]
    refine ⟨returnitem, _, hstep, hr0, ?_, ?_, ?_⟩
    · rw [hsift]
      exact hspec.1
    · rw [hsift]
      have hperm2 : (((h.dropLast).set 0 lastelt).set 0 lastelt).Perm ((h.dropLast).set 0 lastelt) := by
        rw [List.set_set]
      have hp1 := hspec.2.trans hperm2
      have hp3 : ((h.dropLast).set 0 lastelt) = lastelt :: t := by rw [ht]; simp
      refine (List.Perm.cons returnitem hp1).trans ?_
      rw [hp3]
      have h4 : (returnitem :: lastelt :: t).Perm (returnitem :: (t ++ [lastelt])) :=
        List.Perm.cons returnitem (List.perm_append_singleton lastelt t).symm
      refine h4.trans ?_
      rw [show returnitem :: (t ++ [lastelt]) = (returnitem :: t) ++ [lastelt] from rfl]
      rw [← ht, hsplit]
    · intro y hy
      obtain ⟨i, hi⟩ := List.getElem?_of_mem hy
      exact root_min hasym hneg h hh returnitem hr0 i y hi

theorem isHeap_nil {α : Type} (lt : α → α → Bool) : IsHeap lt ([] : List α) := by
  intro i x y hi hx hy
  rw [List.getElem?_eq_none (by simp : ([] : List α).length ≤ i)] at hx
  exact Option.noConfusion hx

theorem crawlRequest_ltB_asym {H : Type} :
    ∀ (a b : CrawlRequest H), CrawlRequest.ltB a b = true → CrawlRequest.ltB b a = false := by
  intro a b hab
  simp only [CrawlRequest.ltB, decide_eq_true_eq] at hab
  simp only [CrawlRequest.ltB, decide_eq_false_iff_not]
  omega

theorem crawlRequest_ltB_neg {H : Type} :
    ∀ (a b c : CrawlRequest H), CrawlRequest.ltB b a = false → CrawlRequest.ltB c b = false →
      CrawlRequest.ltB c a = false := by
  intro a b c hba hcb
  simp only [CrawlRequest.ltB, decide_eq_false_iff_not] at hba hcb ⊢
  omega

theorem add_request_requests {H : Type} (f : CrawlFrontier H) (r : CrawlRequest H) :
    (CrawlFrontier.add_request f r).2.requests = f.requests ∨
      (CrawlFrontier.add_request f r).2.requests = pyHeappush CrawlRequest.ltB f.requests r := by
  simp only [CrawlFrontier.add_request]
  by_cases hdup : f.crawler_configuration.filter_duplicate_requests
  · simp only [hdup, if_true]
    by_cases hmem : CrawlFrontier.generate_url_hash r.url ∈ f.url_hashes
    · simp [hmem]
    · simp only [hmem, if_false]
      by_cases hoff : f.crawler_configuration.filter_offsite_requests
      · simp only [hoff, if_true]
        cases hdom : r.domain with
        | none => simp [hdom]
        | some d =>
          by_cases hmatch : domainPatternSearch f.crawler_configuration.allowed_domains d.data
          · simp [hdom, hmatch]
          · simp [hdom, hmatch]
      · simp [hoff]
  · simp only [hdup, Bool.false_eq_true, if_false]
    by_cases hoff : f.crawler_configuration.filter_offsite_requests
    · simp only [hoff, if_true]
      cases hdom : r.domain with
      | none => simp [hdom]
      | some d =>
        by_cases hmatch : domainPatternSearch f.crawler_configuration.allowed_domains d.data
        · simp [hdom, hmatch]
        · simp [hdom, hmatch]
    · simp [hoff]

theorem add_request_isHeap {H : Type} (f : CrawlFrontier H) (r : CrawlRequest H)
    (hh : IsHeap CrawlRequest.ltB f.requests) :
    IsHeap CrawlRequest.ltB (CrawlFrontier.add_request f r).2.requests := by
  cases add_request_requests f r with
  | inl heq => rw [heq]; exact hh
  | inr heq =>
    rw [heq]
    exact (heappush_spec crawlRequest_ltB_asym crawlRequest_ltB_neg f.requests r hh).1

theorem get_next_request_isHeap {H : Type} (f : CrawlFrontier H)
    (hh : IsHeap CrawlRequest.ltB f.requests) :
    IsHeap CrawlRequest.ltB (CrawlFrontier.get_next_request f).2.requests := by
  simp only [CrawlFrontier.get_next_request]
  cases hlen : f.requests.length with
  | zero =>
    have hnil : f.requests = [] := List.length_eq_zero.mp hlen
    simp [pyHeappop, hnil]
    exact isHeap_nil _
  | succ n =>
    obtain ⟨r, h', hpop, _, hheap, _, _⟩ :=
      heappop_spec crawlRequest_ltB_asym crawlRequest_ltB_neg f.requests hh (by omega)
    simp [hpop]
    exact hheap

theorem frontierOp_isHeap {H : Type} (op : FrontierOp H) (f : CrawlFrontier H)
    (hh : IsHeap CrawlRequest.ltB f.requests) :
    IsHeap CrawlRequest.ltB (FrontierOp.apply op f).requests := by
  cases op with
  | add r => exact add_request_isHeap f r hh
  | pop => exact get_next_request_isHeap f hh

theorem applyOps_isHeap {H : Type} :
    ∀ (ops : List (FrontierOp H)) (f : CrawlFrontier H),
      IsHeap CrawlRequest.ltB f.requests →
      IsHeap CrawlRequest.ltB (applyOps ops f).requests := by
  intro ops
  induction ops with
  | nil => intro f hh; exact hh
  | cons op rest ih =>
    intro f hh
    exact ih (FrontierOp.apply op f) (frontierOp_isHeap op f hh)

theorem drainFrontier_spec {H : Type} :
    ∀ (fuel : Nat) (f : CrawlFrontier H), IsHeap CrawlRequest.ltB f.requests →
      f.requests.length ≤ fuel →
      (drainFrontier fuel f).Perm f.requests ∧
        (drainFrontier fuel f).Pairwise (fun a b => CrawlRequest.ltB b a = false) := by
  intro fuel
  induction fuel with
  | zero =>
    intro f hh hlen
    have hnil : f.requests = [] := List.length_eq_zero.mp (by omega)
    simp only [drainFrontier]
    rw [hnil]
    exact ⟨List.Perm.refl _, List.Pairwise.nil⟩
  | succ fuel ih =>
    intro f hh hlen
    cases hlen2 : f.requests.length with
    | zero =>
      have hnil : f.requests = [] := List.length_eq_zero.mp hlen2
      simp only [drainFrontier, CrawlFrontier.get_next_request, pyHeappop, hnil]
      simp [hnil]
    | succ n =>
      obtain ⟨r, h', hpop, hroot, hheap, hperm, hmin⟩ :=
        heappop_spec crawlRequest_ltB_asym crawlRequest_ltB_neg f.requests hh (by omega)
      have hstep : drainFrontier (fuel + 1) f =
          r :: drainFrontier fuel { f with requests := h' } := by
        simp [drainFrontier, CrawlFrontier.get_next_request, hpop]
      have hlen3 : h'.length ≤ fuel := by
        have := hperm.length_eq
        simp at this
        omega
      obtain ⟨ihperm, ihpair⟩ := ih { f with requests := h' } hheap hlen3
      rw [hstep]
      constructor
      · exact (List.Perm.cons r ihperm).trans hperm
      · refine List.Pairwise.cons ?_ ihpair
        intro b hb
        have hb2 : b ∈ h' := ihperm.mem_iff.mp hb
        have hb3 : b ∈ f.requests := hperm.mem_iff.mp (List.mem_cons_of_mem r hb2)
        exact hmin b hb3

/-! ### Verification of the fingerprint sort -/

theorem char_eq_of_toNat_eq {a b : Char} (h : a.toNat = b.toNat) : a = b := by
  have ha : Char.ofNat a.toNat = a := Char.ofNat_toNat a
  have hb : Char.ofNat b.toNat = b := Char.ofNat_toNat b
  rw [← ha, ← hb, h]

theorem charListLe_refl : ∀ (l : List Char), charListLe l l = true := by
  intro l
  induction l with
  | nil => rfl
  | cons c cs ih => simp [charListLe, ih]

theorem charListLe_total : ∀ (a b : List Char),
    charListLe a b = true ∨ charListLe b a = true := by
  intro a
  induction a with
  | nil => intro b; left; rfl
  | cons c cs ih =>
    intro b
    cases b with
    | nil => right; rfl
    | cons d ds =>
      by_cases hcd : c = d
      · subst hcd
        simp only [charListLe, if_pos rfl]
        exact ih ds
      · have hne : ¬ c.toNat = d.toNat := fun hh => hcd (char_eq_of_toNat_eq hh)
        have hdc : ¬ d = c := fun hh => hcd hh.symm
        rcases Nat.lt_or_ge c.toNat d.toNat with hlt | hge
        · left
          simp only [charListLe, if_neg hcd]
          simpa using hlt
        · right
          simp only [charListLe, if_neg hdc, decide_eq_true_eq]
          omega

theorem charListLe_trans : ∀ (a b c : List Char),
    charListLe a b = true → charListLe b c = true → charListLe a c = true := by
  intro a
  induction a with
  | nil => intro b c _ _; rfl
  | cons x xs ih =>
    intro b c hab hbc
    cases b with
    | nil => simp [charListLe] at hab
    | cons y ys =>
      cases c with
      | nil => simp [charListLe] at hbc
      | cons z zs =>
        by_cases hxy : x = y
        · subst hxy
          simp only [charListLe, if_pos rfl] at hab
          by_cases hyz : x = z
          · subst hyz
            simp only [charListLe, if_pos rfl] at hbc ⊢
            exact ih ys zs hab hbc
          · simp only [charListLe, if_neg hyz] at hbc ⊢
            exact hbc
        · simp only [charListLe, if_neg hxy] at hab
          by_cases hyz : y = z
          · subst hyz
            simp only [charListLe, if_neg hxy]
            exact hab
          · simp only [charListLe, if_neg hyz] at hbc
            by_cases hxz : x = z
            · exfalso
              subst hxz
              simp at hab hbc
              omega
            · simp only [charListLe, if_neg hxz]
              simp at hab hbc ⊢
              omega

theorem charListLe_antisymm : ∀ (a b : List Char),
    charListLe a b = true → charListLe b a = true → a = b := by
  intro a
  induction a with
  | nil =>
    intro b _ hba
    cases b with
    | nil => rfl
    | cons d ds => simp [charListLe] at hba
  | cons c cs ih =>
    intro b hab hba
    cases b with
    | nil => simp [charListLe] at hab
    | cons d ds =>
      by_cases hcd : c = d
      · subst hcd
        simp only [charListLe, if_pos rfl] at hab hba
        rw [ih ds hab hba]
      · have hdc : ¬ d = c := fun hh => hcd hh.symm
        simp only [charListLe, if_neg hcd] at hab
        simp only [charListLe, if_neg hdc] at hba
        simp at hab hba
        omega

theorem qslKeyLe_trans : ∀ (a b c : List Char × List Char),
    qslKeyLe a b = true → qslKeyLe b c = true → qslKeyLe a c = true := by
  intro a b c hab hbc
  by_cases h1 : a.1 = b.1
  · by_cases h2 : b.1 = c.1
    · simp only [qslKeyLe, if_pos h1] at hab
      simp only [qslKeyLe, if_pos h2] at hbc
      simp only [qslKeyLe, if_pos (h1.trans h2)]
      exact charListLe_trans a.2 b.2 c.2 hab hbc
    · have h3 : ¬ a.1 = c.1 := fun hh => h2 (h1.symm.trans hh)
      simp only [qslKeyLe, if_neg h2] at hbc
      simp only [qslKeyLe, if_neg h3]
      rw [h1]
      exact hbc
  · by_cases h2 : b.1 = c.1
    · have h3 : ¬ a.1 = c.1 := fun hh => h1 (hh.trans h2.symm)
      simp only [qslKeyLe, if_neg h1] at hab
      simp only [qslKeyLe, if_neg h3]
      rw [← h2]
      exact hab
    · simp only [qslKeyLe, if_neg h1] at hab
      simp only [qslKeyLe, if_neg h2] at hbc
      by_cases h3 : a.1 = c.1
      · exfalso
        apply h2
        rw [h3] at hab
        exact (charListLe_antisymm c.1 b.1 hab hbc).symm
      · simp only [qslKeyLe, if_neg h3]
        exact charListLe_trans a.1 b.1 c.1 hab hbc

theorem qslKeyLe_total : ∀ (a b : List Char × List Char),
    (qslKeyLe a b || qslKeyLe b a) = true := by
  intro a b
  by_cases h1 : a.1 = b.1
  · simp only [qslKeyLe, if_pos h1, if_pos h1.symm]
    rcases charListLe_total a.2 b.2 with h | h <;> simp [h]
  · have h1s : ¬ b.1 = a.1 := fun hh => h1 hh.symm
    simp only [qslKeyLe, if_neg h1, if_neg h1s]
    rcases charListLe_total a.1 b.1 with h | h <;> simp [h]

theorem qslKeyLe_antisymm : ∀ (a b : List Char × List Char),
    qslKeyLe a b = true → qslKeyLe b a = true → a = b := by
  intro a b hab hba
  by_cases h1 : a.1 = b.1
  · simp only [qslKeyLe, if_pos h1] at hab
    simp only [qslKeyLe, if_pos h1.symm] at hba
    have h2 := charListLe_antisymm a.2 b.2 hab hba
    exact Prod.ext h1 h2
  · have h1s : ¬ b.1 = a.1 := fun hh => h1 hh.symm
    simp only [qslKeyLe, if_neg h1] at hab
    simp only [qslKeyLe, if_neg h1s] at hba
    exact absurd (charListLe_antisymm a.1 b.1 hab hba) h1

theorem insertionSort_qslKeyLe_eq_of_perm {l1 l2 : List (List Char × List Char)}
    (hp : l1.Perm l2) :
    l1.insertionSort (fun a b => qslKeyLe a b = true) =
      l2.insertionSort (fun a b => qslKeyLe a b = true) := by
  have htotal : IsTotal (List Char × List Char) (fun a b => qslKeyLe a b = true) := by
    constructor
    intro a b
    rcases Bool.or_eq_true_iff.mp (qslKeyLe_total a b) with h | h
    · exact Or.inl h
    · exact Or.inr h
  have htrans : IsTrans (List Char × List Char) (fun a b => qslKeyLe a b = true) := by
    constructor
    intro a b c
    exact qslKeyLe_trans a b c
  refine @List.eq_of_perm_of_sorted _ (fun a b => qslKeyLe a b = true)
    ⟨qslKeyLe_antisymm⟩ _ _ ?_ ?_ ?_
  · exact (List.perm_insertionSort _ l1).trans (hp.trans (List.perm_insertionSort _ l2).symm)
  · exact @List.sorted_insertionSort _ _ _ htotal htrans l1
  · exact @List.sorted_insertionSort _ _ _ htotal htrans l2

/-! ### Frontier state lemmas -/

theorem add_request_dup_hit {H : Type} (f : CrawlFrontier H) (r : CrawlRequest H)
    (hdup : f.crawler_configuration.filter_duplicate_requests = true)
    (hmem : CrawlFrontier.generate_url_hash r.url ∈ f.url_hashes) :
    CrawlFrontier.add_request f r = (Except.ok false, f) := by
  simp [CrawlFrontier.add_request, hdup, hmem]

theorem add_request_url_hashes {H : Type} (f : CrawlFrontier H) (r : CrawlRequest H) :
    (CrawlFrontier.add_request f r).2.url_hashes = f.url_hashes ∨
      (CrawlFrontier.add_request f r).2.url_hashes =
        CrawlFrontier.generate_url_hash r.url :: f.url_hashes := by
  simp only [CrawlFrontier.add_request]
  by_cases hdup : f.crawler_configuration.filter_duplicate_requests
  · simp only [hdup, if_true]
    by_cases hmem : CrawlFrontier.generate_url_hash r.url ∈ f.url_hashes
    · simp [hmem]
    · simp only [hmem, if_false]
      by_cases hoff : f.crawler_configuration.filter_offsite_requests
      · simp only [hoff, if_true]
        cases hdom : r.domain with
        | none => simp [hdom]
        | some d =>
          by_cases hmatch : domainPatternSearch f.crawler_configuration.allowed_domains d.data
          · simp [hdom, hmatch]
          · simp [hdom, hmatch]
      · simp [hoff]
  · simp only [hdup, Bool.false_eq_true, if_false]
    by_cases hoff : f.crawler_configuration.filter_offsite_requests
    · simp only [hoff, if_true]
      cases hdom : r.domain with
      | none => simp [hdom]
      | some d =>
        by_cases hmatch : domainPatternSearch f.crawler_configuration.allowed_domains d.data
        · simp [hdom, hmatch]
        · simp [hdom, hmatch]
    · simp [hoff]

theorem add_request_cfg {H : Type} (f : CrawlFrontier H) (r : CrawlRequest H) :
    (CrawlFrontier.add_request f r).2.crawler_configuration = f.crawler_configuration := by
  simp only [CrawlFrontier.add_request]
  by_cases hdup : f.crawler_configuration.filter_duplicate_requests
  · simp only [hdup, if_true]
    by_cases hmem : CrawlFrontier.generate_url_hash r.url ∈ f.url_hashes
    · simp [hmem]
    · simp only [hmem, if_false]
      by_cases hoff : f.crawler_configuration.filter_offsite_requests
      · simp only [hoff, if_true]
        cases hdom : r.domain with
        | none => simp [hdom]
        | some d =>
          by_cases hmatch : domainPatternSearch f.crawler_configuration.allowed_domains d.data
          · simp [hdom, hmatch]
          · simp [hdom, hmatch]
      · simp [hoff]
  · simp only [hdup, Bool.false_eq_true, if_false]
    by_cases hoff : f.crawler_configuration.filter_offsite_requests
    · simp only [hoff, if_true]
      cases hdom : r.domain with
      | none => simp [hdom]
      | some d =>
        by_cases hmatch : domainPatternSearch f.crawler_configuration.allowed_domains d.data
        · simp [hdom, hmatch]
        · simp [hdom, hmatch]
    · simp [hoff]

theorem get_next_request_url_hashes {H : Type} (f : CrawlFrontier H) :
    (CrawlFrontier.get_next_request f).2.url_hashes = f.url_hashes := by
  simp only [CrawlFrontier.get_next_request]
  cases pyHeappop CrawlRequest.ltB f.requests with
  | none => rfl
  | some p => rfl

theorem get_next_request_cfg {H : Type} (f : CrawlFrontier H) :
    (CrawlFrontier.get_next_request f).2.crawler_configuration = f.crawler_configuration := by
  simp only [CrawlFrontier.get_next_request]
  cases pyHeappop CrawlRequest.ltB f.requests with
  | none => rfl
  | some p => rfl

theorem applyOps_cfg {H : Type} :
    ∀ (ops : List (FrontierOp H)) (f : CrawlFrontier H),
      (applyOps ops f).crawler_configuration = f.crawler_configuration := by
  intro ops
  induction ops with
  | nil => intro f; rfl
  | cons op rest ih =>
    intro f
    rw [show applyOps (op :: rest) f = applyOps rest (FrontierOp.apply op f) from rfl, ih]
    cases op with
    | add r => exact add_request_cfg f r
    | pop => exact get_next_request_cfg f

theorem applyOps_hashes_mono {H : Type} :
    ∀ (ops : List (FrontierOp H)) (f : CrawlFrontier H) (h : String),
      h ∈ f.url_hashes → h ∈ (applyOps ops f).url_hashes := by
  intro ops
  induction ops with
  | nil => intro f h hmem; exact hmem
  | cons op rest ih =>
    intro f h hmem
    rw [show applyOps (op :: rest) f = applyOps rest (FrontierOp.apply op f) from rfl]
    apply ih
    cases op with
    | add r =>
      show h ∈ (CrawlFrontier.add_request f r).2.url_hashes
      cases add_request_url_hashes f r with
      | inl heq => rw [heq]; exact hmem
      | inr heq => rw [heq]; exact List.mem_cons_of_mem _ hmem
    | pop =>
      show h ∈ (CrawlFrontier.get_next_request f).2.url_hashes
      rw [get_next_request_url_hashes]
      exact hmem

theorem add_request_ok_true_hash {H : Type} (f : CrawlFrontier H) (r : CrawlRequest H)
    (f1 : CrawlFrontier H)
    (hdup : f.crawler_configuration.filter_duplicate_requests = true)
    (hadd : CrawlFrontier.add_request f r = (Except.ok true, f1)) :
    CrawlFrontier.generate_url_hash r.url ∈ f1.url_hashes := by
  by_cases hmem : CrawlFrontier.generate_url_hash r.url ∈ f.url_hashes
  · rw [add_request_dup_hit f r hdup hmem] at hadd
    have := congrArg Prod.fst hadd
    simp at this
  · revert hadd
    simp only [CrawlFrontier.add_request, hdup, if_true, hmem, if_false]
    by_cases hoff : f.crawler_configuration.filter_offsite_requests
    · simp only [hoff, if_true]
      cases hdom : r.domain with
      | none =>
        intro hadd
        simp at hadd
      | some d =>
        by_cases hmatch : domainPatternSearch f.crawler_configuration.allowed_domains d.data
        · simp only [hmatch, if_true]
          intro hadd
          have := congrArg (fun p => p.2.url_hashes) hadd
          simp at this
          rw [← this]
          exact List.mem_cons_self _ _
        · simp only [hmatch, Bool.false_eq_true, if_false]
          intro hadd
          simp at hadd
    · simp only [hoff, Bool.false_eq_true, if_false]
      intro hadd
      have := congrArg (fun p => p.2.url_hashes) hadd
      simp at this
      rw [← this]
      exact List.mem_cons_self _ _

/-! ### Claim theorems -/

/-- C6: for every pair of requests A and B, A.merge(B) returns a request
whose url and domain are taken from A, whose priority is A's priority when
truthy and B's otherwise, and whose redirect, success and error handlers
are, independently, A's when set and B's otherwise. -/
theorem merge_first_wins_semantics {H : Type} (a b : CrawlRequest H) :
    (a.merge b).url = a.url ∧
    (a.merge b).domain = a.domain ∧
    (a.merge b).priority = (if a.priority = 0 then b.priority else a.priority) ∧
    (a.merge b).redirect_func =
      (if a.redirect_func.isSome then a.redirect_func else b.redirect_func) ∧
    (a.merge b).success_func =
      (if a.success_func.isSome then a.success_func else b.success_func) ∧
    (a.merge b).error_func =
      (if a.error_func.isSome then a.error_func else b.error_func) := by
  refine ⟨rfl, rfl, rfl, ?_, ?_, ?_⟩
  · cases hrf : a.redirect_func with
    | none => simp [CrawlRequest.merge, CrawlRequest.init, pyOrOpt, hrf]
    | some h => simp [CrawlRequest.merge, CrawlRequest.init, pyOrOpt, hrf]
  · cases hsf : a.success_func with
    | none => simp [CrawlRequest.merge, CrawlRequest.init, pyOrOpt, hsf]
    | some h => simp [CrawlRequest.merge, CrawlRequest.init, pyOrOpt, hsf]
  · cases hef : a.error_func with
    | none => simp [CrawlRequest.merge, CrawlRequest.init, pyOrOpt, hef]
    | some h => simp [CrawlRequest.merge, CrawlRequest.init, pyOrOpt, hef]

/-- C5: for every completed GET response the orchestrator dispatches
exactly one handler invocation after the GET navigation: the success
handler of the request (or the default success hook) for a status from
200 to 299, the error handler (or the default error hook) otherwise. -/
theorem response_status_dispatch {H : Type} (f : CrawlFrontier H)
    (next : CrawlRequest H) (resp : RawResponse) :
    (200 ≤ resp.status ∧ resp.status ≤ 299 →
      Crawler.runIteration f next ProbeOutcome.completed resp =
        ([CrawlEvent.getNavigation next.url,
          CrawlEvent.successDispatch next.success_func
            ⟨next, resp.status, resp.headers, some resp.text⟩], f, none)) ∧
    (resp.status < 200 ∨ 300 ≤ resp.status →
      Crawler.runIteration f next ProbeOutcome.completed resp =
        ([CrawlEvent.getNavigation next.url,
          CrawlEvent.errorDispatch next.error_func
            ⟨next, resp.status, resp.headers, some resp.text⟩], f, none)) := by
  constructor
  · intro hs
    simp only [Crawler.runIteration, Crawler.handle_response]
    rw [if_pos (by omega : 200 ≤ resp.status ∧ resp.status < 300)]
  · intro hs
    simp only [Crawler.runIteration, Crawler.handle_response]
    rw [if_neg (by omega : ¬ (200 ≤ resp.status ∧ resp.status < 300))]

/-- Witness for the status classification: a concrete 200 response takes
the success path through the theorem, and the hypothesis holds there. -/
theorem response_status_dispatch_witness :
    ((200 : Int) ≤ 200 ∧ (200 : Int) ≤ 299) ∧
    Crawler.runIteration (⟨⟨[], false, false, []⟩, [], []⟩ : CrawlFrontier Unit)
        (CrawlRequest.init Unit "http://example.com" 0 none none none)
        ProbeOutcome.completed ⟨200, [], "Test"⟩ =
      ([CrawlEvent.getNavigation "http://example.com",
        CrawlEvent.successDispatch none
          ⟨CrawlRequest.init Unit "http://example.com" 0 none none none, 200, [], some "Test"⟩],
       ⟨⟨[], false, false, []⟩, [], []⟩, none) :=
  ⟨by decide,
   (response_status_dispatch (⟨⟨[], false, false, []⟩, [], []⟩ : CrawlFrontier Unit)
     (CrawlRequest.init Unit "http://example.com" 0 none none none) ⟨200, [], "Test"⟩).1
     (by decide)⟩

/-- C9: the interception hook of the crawler reads a headers attribute of
the current CrawlRequest, and the integration test passes a headers
keyword to the CrawlRequest constructor, but the CrawlRequest class
neither accepts nor stores nor exposes any headers attribute: the
attribute read raises AttributeError and the test construction raises
TypeError. -/
theorem crawl_request_headers_attribute_missing :
    Crawler.onRequestHeadersAttribute ∉ CrawlRequest.instanceAttributes ∧
    Crawler.onRequestHeadersAttribute ∉ CrawlRequest.propertyNames ∧
    testCrawlerHeadersKeyword ∉ CrawlRequest.initParameters := by
  decide

/-- C7: two URLs whose parses agree on scheme, network location, path and
parameters and whose query strings parse to the same multiset of
parameters (in particular, two URLs differing only in query-parameter
order or in their fragment) receive the same fingerprint digest. -/
theorem fingerprint_stable_query_order_fragment (u1 u2 : String)
    (hscheme : (urlparse u1.data).scheme = (urlparse u2.data).scheme)
    (hnetloc : (urlparse u1.data).netloc = (urlparse u2.data).netloc)
    (hpath : (urlparse u1.data).path = (urlparse u2.data).path)
    (hparams : (urlparse u1.data).params = (urlparse u2.data).params)
    (hquery : (parse_qsl (urlparse u1.data).query).Perm (parse_qsl (urlparse u2.data).query)) :
    CrawlFrontier.generate_url_hash u1 = CrawlFrontier.generate_url_hash u2 := by
  simp only [CrawlFrontier.generate_url_hash]
  rw [insertionSort_qslKeyLe_eq_of_perm hquery, hscheme, hnetloc, hpath, hparams]

/-- Witness for fingerprint stability at the URLs of the specification:
the two query orders and the dropped fragment give equal digests. -/
theorem fingerprint_stable_query_order_fragment_witness :
    (parse_qsl (urlparse "http://example.com/test?abc=def&ghi=jkl#fragment".data).query).Perm
      (parse_qsl (urlparse "http://example.com/test?ghi=jkl&abc=def".data).query) ∧
    CrawlFrontier.generate_url_hash "http://example.com/test?abc=def&ghi=jkl#fragment" =
      CrawlFrontier.generate_url_hash "http://example.com/test?ghi=jkl&abc=def" :=
  ⟨by decide,
   fingerprint_stable_query_order_fragment
     "http://example.com/test?abc=def&ghi=jkl#fragment"
     "http://example.com/test?ghi=jkl&abc=def"
     (by decide) (by decide) (by decide) (by decide) (by decide)⟩

/-- C2: with duplicate filtering enabled, once a request is admitted its
fingerprint stays recorded across any later frontier operations, pops
included, so a later add_request of any fingerprint-equal request returns
false and leaves the whole frontier state unchanged. -/
theorem duplicate_fingerprints_persist {H : Type} (f : CrawlFrontier H)
    (r r' : CrawlRequest H) (f1 : CrawlFrontier H) (ops : List (FrontierOp H))
    (hdup : f.crawler_configuration.filter_duplicate_requests = true)
    (hadd : CrawlFrontier.add_request f r = (Except.ok true, f1))
    (hfp : CrawlFrontier.generate_url_hash r'.url = CrawlFrontier.generate_url_hash r.url) :
    CrawlFrontier.add_request (applyOps ops f1) r' = (Except.ok false, applyOps ops f1) := by
  have h1 : CrawlFrontier.generate_url_hash r.url ∈ f1.url_hashes :=
    add_request_ok_true_hash f r f1 hdup hadd
  have h2 : CrawlFrontier.generate_url_hash r.url ∈ (applyOps ops f1).url_hashes :=
    applyOps_hashes_mono ops f1 _ h1
  have h4 : f1.crawler_configuration = f.crawler_configuration := by
    have hc := add_request_cfg f r
    rw [hadd] at hc
    exact hc
  apply add_request_dup_hit
  · rw [applyOps_cfg, h4]
    exact hdup
  · rw [hfp]
    exact h2

/-- Witness for fingerprint persistence: add the first specification URL,
pop it, then add the query-reordered fragment-free URL; the second add is
rejected and the state is untouched. -/
theorem duplicate_fingerprints_persist_witness :
    CrawlFrontier.add_request (⟨⟨[], true, false, []⟩, [], []⟩ : CrawlFrontier Unit)
        (CrawlRequest.init Unit "http://example.com/test?abc=def&ghi=jkl#fragment" 0 none none none) =
      (Except.ok true,
        (CrawlFrontier.add_request (⟨⟨[], true, false, []⟩, [], []⟩ : CrawlFrontier Unit)
          (CrawlRequest.init Unit "http://example.com/test?abc=def&ghi=jkl#fragment" 0 none none none)).2) ∧
    CrawlFrontier.add_request
        (applyOps [FrontierOp.pop]
          (CrawlFrontier.add_request (⟨⟨[], true, false, []⟩, [], []⟩ : CrawlFrontier Unit)
            (CrawlRequest.init Unit "http://example.com/test?abc=def&ghi=jkl#fragment" 0 none none none)).2)
        (CrawlRequest.init Unit "http://example.com/test?ghi=jkl&abc=def" 0 none none none) =
      (Except.ok false,
        applyOps [FrontierOp.pop]
          (CrawlFrontier.add_request (⟨⟨[], true, false, []⟩, [], []⟩ : CrawlFrontier Unit)
            (CrawlRequest.init Unit "http://example.com/test?abc=def&ghi=jkl#fragment" 0 none none none)).2) :=
  ⟨by decide,
   duplicate_fingerprints_persist (⟨⟨[], true, false, []⟩, [], []⟩ : CrawlFrontier Unit)
     (CrawlRequest.init Unit "http://example.com/test?abc=def&ghi=jkl#fragment" 0 none none none)
     (CrawlRequest.init Unit "http://example.com/test?ghi=jkl&abc=def" 0 none none none)
     _ [FrontierOp.pop] (by decide) (by decide) (by decide)⟩

/-- C10: with both filters enabled, the duplicate check runs first and
records the fingerprint even when the request is then rejected as
off-site: the call returns false with the heap untouched but the hash
recorded, and any later fingerprint-equal add_request is rejected as a
duplicate although nothing was enqueued. -/
theorem duplicate_check_precedes_offsite {H : Type} (f : CrawlFrontier H)
    (r : CrawlRequest H) (d : String)
    (hdup : f.crawler_configuration.filter_duplicate_requests = true)
    (hoff : f.crawler_configuration.filter_offsite_requests = true)
    (hnew : CrawlFrontier.generate_url_hash r.url ∉ f.url_hashes)
    (hdom : r.domain = some d)
    (hnomatch : domainPatternSearch f.crawler_configuration.allowed_domains d.data = false) :
    CrawlFrontier.add_request f r =
      (Except.ok false,
        { f with url_hashes := CrawlFrontier.generate_url_hash r.url :: f.url_hashes }) ∧
    ∀ r' : CrawlRequest H,
      CrawlFrontier.generate_url_hash r'.url = CrawlFrontier.generate_url_hash r.url →
      CrawlFrontier.add_request (CrawlFrontier.add_request f r).2 r' =
        (Except.ok false, (CrawlFrontier.add_request f r).2) := by
  have hmain : CrawlFrontier.add_request f r =
      (Except.ok false,
        { f with url_hashes := CrawlFrontier.generate_url_hash r.url :: f.url_hashes }) := by
    simp [CrawlFrontier.add_request, hdup, hnew, hoff, hdom, hnomatch]
  refine ⟨hmain, ?_⟩
  intro r' hfp
  rw [hmain]
  apply add_request_dup_hit
  · exact hdup
  · rw [hfp]
    exact List.mem_cons_self _ _

/-- Witness for the duplicate-before-offsite order at a concrete off-site
URL: the first call is rejected off-site yet records the hash, and the
identical URL is then rejected as a duplicate. -/
theorem duplicate_check_precedes_offsite_witness :
    (CrawlRequest.init Unit "http://notexample.com" 0 none none none).domain =
      some "notexample.com" ∧
    ∀ r' : CrawlRequest Unit,
      CrawlFrontier.generate_url_hash r'.url =
        CrawlFrontier.generate_url_hash "http://notexample.com" →
      CrawlFrontier.add_request
          (CrawlFrontier.add_request
            (⟨⟨[], true, true, ["example.com"]⟩, [], []⟩ : CrawlFrontier Unit)
            (CrawlRequest.init Unit "http://notexample.com" 0 none none none)).2 r' =
        (Except.ok false,
          (CrawlFrontier.add_request
            (⟨⟨[], true, true, ["example.com"]⟩, [], []⟩ : CrawlFrontier Unit)
            (CrawlRequest.init Unit "http://notexample.com" 0 none none none)).2) :=
  ⟨by decide,
   (duplicate_check_precedes_offsite
     (⟨⟨[], true, true, ["example.com"]⟩, [], []⟩ : CrawlFrontier Unit)
     (CrawlRequest.init Unit "http://notexample.com" 0 none none none)
     "notexample.com" (by decide) (by decide) (by decide) (by decide) (by decide)).2⟩

/-- C3 counterexample: with allowedDomains equal to example.com, a request
to examplexcom is admitted by add_request although its domain neither
equals example.com nor ends with a dot followed by example.com, because
the dot inside the alternative of the compiled pattern matches any
character; so rejection does not hold exactly when the specified match
rule fails. -/
theorem offsite_match_rule_counterexample :
    (CrawlRequest.init Unit "http://examplexcom" 0 none none none).domain =
      some "examplexcom" ∧
    specOffsiteAllowed ["example.com"] "examplexcom" = false ∧
    (CrawlFrontier.add_request
        (⟨⟨[], false, true, ["example.com"]⟩, [], []⟩ : CrawlFrontier Unit)
        (CrawlRequest.init Unit "http://examplexcom" 0 none none none)).1 =
      Except.ok true := by
  decide

/-- C3 as amended: with off-site filtering enabled, a request with a
parsed domain that is not rejected by the duplicate filter is admitted
exactly when the domain matches the compiled pattern, in which the dot
characters of the allowed entries match any character; otherwise it is
rejected with the heap untouched. -/
theorem offsite_filter_matches_compiled_pattern {H : Type} (f : CrawlFrontier H)
    (r : CrawlRequest H) (d : String)
    (hoff : f.crawler_configuration.filter_offsite_requests = true)
    (hdom : r.domain = some d)
    (hnodup : f.crawler_configuration.filter_duplicate_requests = false ∨
      CrawlFrontier.generate_url_hash r.url ∉ f.url_hashes) :
    (CrawlFrontier.add_request f r).1 =
      Except.ok (domainPatternSearch f.crawler_configuration.allowed_domains d.data) ∧
    (CrawlFrontier.add_request f r).2.requests =
      (if domainPatternSearch f.crawler_configuration.allowed_domains d.data
       then pyHeappush CrawlRequest.ltB f.requests r
       else f.requests) := by
  by_cases hmatch : domainPatternSearch f.crawler_configuration.allowed_domains d.data
  · rw [hmatch]
    cases hdup : f.crawler_configuration.filter_duplicate_requests with
    | false =>
      simp [CrawlFrontier.add_request, hdup, hoff, hdom, hmatch]
    | true =>
      have hmem : CrawlFrontier.generate_url_hash r.url ∉ f.url_hashes := by
        rcases hnodup with hfalse | hmem
        · rw [hdup] at hfalse; exact absurd hfalse (by simp)
        · exact hmem
      simp [CrawlFrontier.add_request, hdup, hoff, hdom, hmatch, hmem]
  · have hmatchf : domainPatternSearch f.crawler_configuration.allowed_domains d.data = false := by
      cases hq : domainPatternSearch f.crawler_configuration.allowed_domains d.data with
      | false => rfl
      | true => exact absurd hq hmatch
    rw [hmatchf]
    cases hdup : f.crawler_configuration.filter_duplicate_requests with
    | false =>
      simp [CrawlFrontier.add_request, hdup, hoff, hdom, hmatchf]
    | true =>
      have hmem : CrawlFrontier.generate_url_hash r.url ∉ f.url_hashes := by
        rcases hnodup with hfalse | hmem
        · rw [hdup] at hfalse; exact absurd hfalse (by simp)
        · exact hmem
      simp [CrawlFrontier.add_request, hdup, hoff, hdom, hmatchf, hmem]

/-- Witness for the amended off-site rule at the URLs of the
specification: sub.example.com is admitted and notexample.com is
rejected. -/
theorem offsite_filter_matches_compiled_pattern_witness :
    ((CrawlRequest.init Unit "http://sub.example.com" 0 none none none).domain =
        some "sub.example.com" ∧
      (CrawlFrontier.add_request
        (⟨⟨[], false, true, ["example.com"]⟩, [], []⟩ : CrawlFrontier Unit)
        (CrawlRequest.init Unit "http://sub.example.com" 0 none none none)).1 =
          Except.ok (domainPatternSearch ["example.com"] "sub.example.com".data)) ∧
    ((CrawlRequest.init Unit "http://notexample.com" 0 none none none).domain =
        some "notexample.com" ∧
      (CrawlFrontier.add_request
        (⟨⟨[], false, true, ["example.com"]⟩, [], []⟩ : CrawlFrontier Unit)
        (CrawlRequest.init Unit "http://notexample.com" 0 none none none)).1 =
          Except.ok (domainPatternSearch ["example.com"] "notexample.com".data)) ∧
    domainPatternSearch ["example.com"] "sub.example.com".data = true ∧
    domainPatternSearch ["example.com"] "notexample.com".data = false :=
  ⟨⟨by decide,
    (offsite_filter_matches_compiled_pattern
      (⟨⟨[], false, true, ["example.com"]⟩, [], []⟩ : CrawlFrontier Unit)
      (CrawlRequest.init Unit "http://sub.example.com" 0 none none none)
      "sub.example.com" (by decide) (by decide) (Or.inl (by decide))).1⟩,
   ⟨by decide,
    (offsite_filter_matches_compiled_pattern
      (⟨⟨[], false, true, ["example.com"]⟩, [], []⟩ : CrawlFrontier Unit)
      (CrawlRequest.init Unit "http://notexample.com" 0 none none none)
      "notexample.com" (by decide) (by decide) (Or.inl (by decide))).1⟩,
   by decide, by decide⟩

/-- C8 counterexample: with off-site filtering enabled, a request whose
URL yields no parseable host makes add_request raise TypeError (the
domain handed to re.search is None) instead of degenerating to a
rejection. -/
theorem add_request_typeerror_counterexample :
    (CrawlRequest.init Unit "foo" 0 none none none).domain = none ∧
    CrawlFrontier.add_request
        (⟨⟨[], false, true, ["example.com"]⟩, [], []⟩ : CrawlFrontier Unit)
        (CrawlRequest.init Unit "foo" 0 none none none) =
      (Except.error PyError.typeError,
        (⟨⟨[], false, true, ["example.com"]⟩, [], []⟩ : CrawlFrontier Unit)) := by
  decide

/-- C8 as amended: add_request raises no exception whenever off-site
filtering is disabled or the request has a parseable host; every such
call returns an ordinary boolean verdict. -/
theorem add_request_no_exception_when_domain_present {H : Type}
    (f : CrawlFrontier H) (r : CrawlRequest H)
    (hok : f.crawler_configuration.filter_offsite_requests = false ∨ r.domain ≠ none) :
    ∃ (b : Bool) (f1 : CrawlFrontier H),
      CrawlFrontier.add_request f r = (Except.ok b, f1) := by
  simp only [CrawlFrontier.add_request]
  by_cases hdup : f.crawler_configuration.filter_duplicate_requests
  · simp only [hdup, if_true]
    by_cases hmem : CrawlFrontier.generate_url_hash r.url ∈ f.url_hashes
    · simp only [hmem, if_true]
      exact ⟨false, f, rfl⟩
    · simp only [hmem, if_false]
      by_cases hoff : f.crawler_configuration.filter_offsite_requests
      · cases hdom : r.domain with
        | none =>
          rcases hok with hofff | hdomf
          · rw [hoff] at hofff; exact absurd hofff (by simp)
          · exact absurd hdom hdomf
        | some d =>
          simp only [hoff, if_true, hdom]
          by_cases hmatch : domainPatternSearch f.crawler_configuration.allowed_domains d.data
          · simp only [hmatch, if_true]
            exact ⟨true, _, rfl⟩
          · simp only [hmatch, Bool.false_eq_true, if_false]
            exact ⟨false, _, rfl⟩
      · simp only [hoff, Bool.false_eq_true, if_false]
        exact ⟨true, _, rfl⟩
  · simp only [hdup, Bool.false_eq_true, if_false]
    by_cases hoff : f.crawler_configuration.filter_offsite_requests
    · cases hdom : r.domain with
      | none =>
        rcases hok with hofff | hdomf
        · rw [hoff] at hofff; exact absurd hofff (by simp)
        · exact absurd hdom hdomf
      | some d =>
        simp only [hoff, if_true, hdom]
        by_cases hmatch : domainPatternSearch f.crawler_configuration.allowed_domains d.data
        · simp only [hmatch, if_true]
          exact ⟨true, _, rfl⟩
        · simp only [hmatch, Bool.false_eq_true, if_false]
          exact ⟨false, _, rfl⟩
    · simp only [hoff, Bool.false_eq_true, if_false]
      exact ⟨true, _, rfl⟩

/-- Witness for the amended no-exception property: a hostless URL with
off-site filtering disabled is processed without an exception. -/
theorem add_request_no_exception_witness :
    ((⟨⟨[], false, false, []⟩, [], []⟩ : CrawlFrontier Unit).crawler_configuration.filter_offsite_requests = false ∨
      (CrawlRequest.init Unit "foo" 0 none none none).domain ≠ none) ∧
    ∃ (b : Bool) (f1 : CrawlFrontier Unit),
      CrawlFrontier.add_request (⟨⟨[], false, false, []⟩, [], []⟩ : CrawlFrontier Unit)
        (CrawlRequest.init Unit "foo" 0 none none none) = (Except.ok b, f1) :=
  ⟨Or.inl (by decide),
   add_request_no_exception_when_domain_present
     (⟨⟨[], false, false, []⟩, [], []⟩ : CrawlFrontier Unit)
     (CrawlRequest.init Unit "foo" 0 none none none) (Or.inl (by decide))⟩

/-- C1 counterexample: in the trace of a redirected iteration both a
redirect dispatch and a frontier admission occur, but no redirect
dispatch precedes any admission: the code re-submits the new request
before invoking the redirect handler, not after it as claimed. -/
theorem redirect_dispatch_order_counterexample :
    ((Crawler.runIteration (⟨⟨[], false, false, []⟩, [], []⟩ : CrawlFrontier Unit)
        (CrawlRequest.init Unit "http://example.com/a" 0 (some ()) none none)
        (ProbeOutcome.redirected "http://example.com/b" ⟨301, [], ""⟩)
        ⟨200, [], ""⟩).1.any isRedirectDispatch = true) ∧
    ((Crawler.runIteration (⟨⟨[], false, false, []⟩, [], []⟩ : CrawlFrontier Unit)
        (CrawlRequest.init Unit "http://example.com/a" 0 (some ()) none none)
        (ProbeOutcome.redirected "http://example.com/b" ⟨301, [], ""⟩)
        ⟨200, [], ""⟩).1.any isFrontierAdd = true) ∧
    dispatchPrecedesAdmission
      (Crawler.runIteration (⟨⟨[], false, false, []⟩, [], []⟩ : CrawlFrontier Unit)
        (CrawlRequest.init Unit "http://example.com/a" 0 (some ()) none none)
        (ProbeOutcome.redirected "http://example.com/b" ⟨301, [], ""⟩)
        ⟨200, [], ""⟩).1 = false := by
  decide

/-- C1 as amended: for a dequeued request whose probe is observed as a
redirect continuation, provided the admission of the merged redirect
request returns without raising, the iteration first re-submits the new
request (built for the redirect target and merged from the original) via
add_request and then invokes the redirect handler of the original request
(or the default hook) exactly once, with a CrawlResponse for the original
request whose text is absent; no GET navigation is issued for the
original request. -/
theorem redirect_iteration_resubmits_then_dispatches {H : Type}
    (f : CrawlFrontier H) (origin : CrawlRequest H) (url : String)
    (resp getResp : RawResponse) (accepted : Bool) (f1 : CrawlFrontier H)
    (hadd : CrawlFrontier.add_request f
        ((CrawlRequest.init H url 0 none none none).merge origin) =
      (Except.ok accepted, f1)) :
    Crawler.runIteration f origin (ProbeOutcome.redirected url resp) getResp =
      ([CrawlEvent.frontierAdd ((CrawlRequest.init H url 0 none none none).merge origin)
          accepted,
        CrawlEvent.redirectDispatch origin.redirect_func
          ⟨origin, resp.status, resp.headers, none⟩
          ((CrawlRequest.init H url 0 none none none).merge origin)], f1, none) ∧
    ∀ e ∈ (Crawler.runIteration f origin (ProbeOutcome.redirected url resp) getResp).1,
      isGetNavigation e = false := by
  have hmain : Crawler.runIteration f origin (ProbeOutcome.redirected url resp) getResp =
      ([CrawlEvent.frontierAdd ((CrawlRequest.init H url 0 none none none).merge origin)
          accepted,
        CrawlEvent.redirectDispatch origin.redirect_func
          ⟨origin, resp.status, resp.headers, none⟩
          ((CrawlRequest.init H url 0 none none none).merge origin)], f1, none) := by
    simp only [Crawler.runIteration, Crawler.handle_redirect, hadd]
  refine ⟨hmain, ?_⟩
  intro e he
  rw [hmain] at he
  simp only [List.mem_cons, List.mem_singleton] at he
  rcases he with he | he | he
  · subst he; rfl
  · subst he; rfl
  · exact absurd he (List.not_mem_nil e)

/-- Witness for the amended redirect protocol at a concrete redirected
probe with a user redirect handler. -/
theorem redirect_iteration_resubmits_then_dispatches_witness :
    CrawlFrontier.add_request (⟨⟨[], false, false, []⟩, [], []⟩ : CrawlFrontier Unit)
        ((CrawlRequest.init Unit "http://example.com/b" 0 none none none).merge
          (CrawlRequest.init Unit "http://example.com/a" 0 (some ()) none none)) =
      (Except.ok true,
        (CrawlFrontier.add_request (⟨⟨[], false, false, []⟩, [], []⟩ : CrawlFrontier Unit)
          ((CrawlRequest.init Unit "http://example.com/b" 0 none none none).merge
            (CrawlRequest.init Unit "http://example.com/a" 0 (some ()) none none))).2) ∧
    Crawler.runIteration (⟨⟨[], false, false, []⟩, [], []⟩ : CrawlFrontier Unit)
        (CrawlRequest.init Unit "http://example.com/a" 0 (some ()) none none)
        (ProbeOutcome.redirected "http://example.com/b" ⟨301, [], ""⟩) ⟨200, [], ""⟩ =
      ([CrawlEvent.frontierAdd
          ((CrawlRequest.init Unit "http://example.com/b" 0 none none none).merge
            (CrawlRequest.init Unit "http://example.com/a" 0 (some ()) none none)) true,
        CrawlEvent.redirectDispatch (some ())
          ⟨CrawlRequest.init Unit "http://example.com/a" 0 (some ()) none none, 301, [], none⟩
          ((CrawlRequest.init Unit "http://example.com/b" 0 none none none).merge
            (CrawlRequest.init Unit "http://example.com/a" 0 (some ()) none none))],
       (CrawlFrontier.add_request (⟨⟨[], false, false, []⟩, [], []⟩ : CrawlFrontier Unit)
          ((CrawlRequest.init Unit "http://example.com/b" 0 none none none).merge
            (CrawlRequest.init Unit "http://example.com/a" 0 (some ()) none none))).2,
       none) :=
  ⟨by decide,
   (redirect_iteration_resubmits_then_dispatches
     (⟨⟨[], false, false, []⟩, [], []⟩ : CrawlFrontier Unit)
     (CrawlRequest.init Unit "http://example.com/a" 0 (some ()) none none)
     "http://example.com/b" ⟨301, [], ""⟩ ⟨200, [], ""⟩ true _ (by decide)).1⟩

/-- C4: from any reachable frontier state (any configuration, any
sequence of add_request and get_next_request operations applied after the
constructor replays the seeds), draining the frontier by repeated
get_next_request returns every pending request exactly once in
non-increasing priority order, so a strictly higher priority request is
always returned before any lower priority one. -/
theorem dequeue_priority_descending {H : Type} (cfg : CrawlerConfiguration H)
    (ops : List (FrontierOp H)) :
    (CrawlFrontier.drain (applyOps ops (CrawlFrontier.construct cfg))).Pairwise
        (fun a b => b.priority ≤ a.priority) ∧
    (CrawlFrontier.drain (applyOps ops (CrawlFrontier.construct cfg))).Perm
        (applyOps ops (CrawlFrontier.construct cfg)).requests := by
  have hheap : IsHeap CrawlRequest.ltB
      (applyOps ops (CrawlFrontier.construct cfg)).requests := by
    apply applyOps_isHeap
    simp only [CrawlFrontier.construct]
    apply applyOps_isHeap
    exact isHeap_nil _
  obtain ⟨hperm, hpair⟩ := drainFrontier_spec
    (applyOps ops (CrawlFrontier.construct cfg)).requests.length
    (applyOps ops (CrawlFrontier.construct cfg)) hheap (Nat.le_refl _)
  refine ⟨List.Pairwise.imp ?_ hpair, hperm⟩
  intro a b hab
  simp only [CrawlRequest.ltB, decide_eq_false_iff_not] at hab
  omega

/-- The priority example of the specification: inserting priorities five,
one, five, nine in that order and draining yields nine first, the two
fives, then one. -/
theorem priority_example_five_one_five_nine :
    (CrawlFrontier.drain (applyOps
        [FrontierOp.add (CrawlRequest.init Unit "http://a.example" 5 none none none),
         FrontierOp.add (CrawlRequest.init Unit "http://b.example" 1 none none none),
         FrontierOp.add (CrawlRequest.init Unit "http://c.example" 5 none none none),
         FrontierOp.add (CrawlRequest.init Unit "http://d.example" 9 none none none)]
        (CrawlFrontier.initial ⟨[], false, false, []⟩))).map
      (fun r => r.priority) = [9, 5, 5, 1] := by
  decide
